import Mathlib

/-!
# FileRenameAppender (plog sample): rotation and backup state machine

A shallow embedding of `samples/FileRenameAppender/Main.cpp`.

* `Config` holds the members of `FileRenameAppender` that are fixed by the
  constructor (`m_maxFileSize`, `m_maxFiles`, the split file name) together with
  the two template collaborators (`Formatter`, `Converter`) as plain functions.
* `State` holds the mutable members (`m_file`, `m_fileSize`, `m_firstWrite`) and
  the environment the appender acts on: the file system, a script of upcoming
  I/O outcomes and a ghost trace of the calls performed.
* `util::File` is declared in `plog/Util.h`, which is not part of the sample; its
  primitives are modelled from the specification.

The mutex is not modelled: every operation is a function on the state, which is
the sequential behaviour of one critical section.

Integers: `off_t` and `int` values are `Int`s. The conversion
`static_cast<off_t>(maxFileSize)` is modelled with its reduction (`toOffT`) and the
`int` arithmetic on `m_maxFiles` and on the loop index of `rollLogFiles` with its
wraparound (`intResult`); byte counts are assumed to fit their C++ types.
-/

namespace plog

/-- Narrow strings (`util::nstring`): file names. -/
abbrev NString := List Char

/-- Byte sequences produced by the converter and stored in files. -/
abbrev Bytes := List UInt8

/-- Outcome of one upcoming `open` or `write` system call. An empty script means
that every call succeeds in full. -/
inductive Outcome where
  | ok
  | short (k : Nat)
  | fail
  deriving DecidableEq, Repr

/-- Ghost record of the calls an operation performs, in program order. -/
inductive Event where
  | roll
  | closed
  | opened (name : NString) (wasOpen : Bool) (size : Int)
  | wrote (data : Bytes) (reported : Int)
  | unlinked (name : NString) (existed : Bool)
  | renamed (src dst : NString) (srcExisted dstExisted : Bool)
  deriving DecidableEq, Repr

/-- Constructor-fixed members of `FileRenameAppender<Formatter, Converter>`:
`m_maxFileSize` and `m_maxFiles` are `const`, the two name parts are assigned only
in the constructor. `header` stands for `Converter::header(Formatter::header())`
and `convert` for `Converter::convert(Formatter::format(record))`. -/
structure Config (Record : Type) where
  m_maxFileSize : Int
  m_maxFiles : Int
  m_fileExt : NString
  m_fileNameNoExt : NString
  header : Bytes
  convert : Record → Bytes

/-- Mutable members of the appender and the environment. `m_file` is the name the
handle is open on (`none` when closed); `files` maps a name to its content, `none`
when no such file exists. The names the appender generates (`buildFileName`) are the
keys of `files`. A name supplied by the caller is a path: `resolve` gives the key of
the file it denotes, or `none` when it denotes no file that can be created or replaced
(the empty name, a path in a missing directory); another spelling of a file resolves
to that file's key. Unless stated otherwise every non-empty name denotes the file
keyed by its own spelling. -/
structure State where
  m_file : Option NString
  m_fileSize : Int
  m_firstWrite : Bool
  files : NString → Option Bytes
  script : List Outcome
  trace : List Event
  resolve : NString → Option NString := fun n => if n = [] then none else some n

/-- Conversion `static_cast<off_t>(size_t)` on an LP64 platform (both 64 bits wide):
reduction modulo `2^64` followed by the two's complement reading. -/
def toOffT (x : Nat) : Int :=
  let r : Nat := x % 2 ^ 64
  if r < 2 ^ 63 then (r : Int) else (r : Int) - 2 ^ 64

/-- Constructor `FileRenameAppender(fileName, maxFileSize, maxFiles)`. The result of
`util::splitFileName(fileName, m_fileNameNoExt, m_fileExt)` is taken as the two
arguments `fileNameNoExt` and `fileExt`. -/
def FileRenameAppender {Record : Type} (fileNameNoExt fileExt : NString)
    (maxFileSize : Nat) (maxFiles : Int) (header : Bytes) (convert : Record → Bytes) :
    Config Record :=
  { m_maxFileSize := max (toOffT maxFileSize) (toOffT 1000)
    m_maxFiles := maxFiles
    m_fileExt := fileExt
    m_fileNameNoExt := fileNameNoExt
    header := header
    convert := convert }

/-- Member initialisers of the constructor: `m_fileSize()`, `m_firstWrite(true)` and a
default-constructed (closed) `util::File`; no file I/O happens. -/
def initState (files : NString → Option Bytes) (script : List Outcome) : State :=
  { m_file := none
    m_fileSize := 0
    m_firstWrite := true
    files := files
    script := script
    trace := [] }

/-- Assignment `m_fileSize = sz`. -/
def State.setSize (s : State) (sz : Int) : State :=
  { s with m_fileSize := sz }

/-- Compound assignment `m_fileSize += n`. -/
def State.addSize (s : State) (n : Int) : State :=
  { s with m_fileSize := s.m_fileSize + n }

/-- Assignment `m_firstWrite = false`. -/
def State.clearFirstWrite (s : State) : State :=
  { s with m_firstWrite := false }

/-- Ghost step: one entry appended to the trace. -/
def State.log (s : State) (e : Event) : State :=
  { s with trace := s.trace ++ [e] }

/-- Member `buildFileName(int fileNumber = 0)`: the stream insertion of a positive
`int` is its decimal rendering. -/
def buildFileName {Record : Type} (p : Config Record) (fileNumber : Int) : NString :=
  p.m_fileNameNoExt
    ++ (if fileNumber > 0 then '.' :: Nat.toDigits 10 fileNumber.toNat else [])
    ++ (if p.m_fileExt ≠ [] then '.' :: p.m_fileExt else [])

/-- Modelled from the spec: `util::File::open(path) -> initial size | failure`
(`plog/Util.h` is missing). Opens or creates the file for appending and reports its
size; a scripted failure reports the sentinel `-1` and leaves the handle closed. -/
def fileOpen (name : NString) (s : State) : Int × State :=
  match s.script with
  | Outcome.fail :: rest =>
    (-1, { s with m_file := none, script := rest,
                  trace := s.trace ++ [Event.opened name s.m_file.isSome (-1)] })
  | _ =>
    let content := (s.files name).getD []
    ((content.length : Int),
      { s with m_file := some name,
               files := Function.update s.files name (some content),
               script := s.script.tail,
               trace := s.trace ++ [Event.opened name s.m_file.isSome content.length] })

/-- Data appended to the file the handle is open on. A file that no longer has a
name keeps no name. -/
def appendTo (files : NString → Option Bytes) (name : NString) (data : Bytes) :
    NString → Option Bytes :=
  match files name with
  | none => files
  | some content => Function.update files name (some (content ++ data))

/-- Modelled from the spec: `util::File::write(bytes) -> bytes written | failure
sentinel` (`plog/Util.h` is missing). A closed handle or a scripted failure reports
`-1` and writes nothing; a scripted short write persists only the first `k` bytes. -/
def fileWrite (data : Bytes) (s : State) : Int × State :=
  match s.m_file with
  | none => (-1, { s with trace := s.trace ++ [Event.wrote data (-1)] })
  | some name =>
    match s.script with
    | Outcome.fail :: rest =>
      (-1, { s with script := rest, trace := s.trace ++ [Event.wrote data (-1)] })
    | Outcome.short k :: rest =>
      (((data.take k).length : Int),
        { s with files := appendTo s.files name (data.take k),
                 script := rest,
                 trace := s.trace ++ [Event.wrote data (data.take k).length] })
    | _ =>
      ((data.length : Int),
        { s with files := appendTo s.files name data,
                 script := s.script.tail,
                 trace := s.trace ++ [Event.wrote data data.length] })

/-- Modelled from the spec: `util::File::close()` (`plog/Util.h` is missing). -/
def fileClose (s : State) : State :=
  { s with m_file := none, trace := s.trace ++ [Event.closed] }

/-- Modelled from the spec: `util::File::unlink(path)`, which tolerates a missing
file (`plog/Util.h` is missing). -/
def fileUnlink (name : NString) (s : State) : State :=
  { s with files := Function.update s.files name none,
           trace := s.trace ++ [Event.unlinked name (s.files name).isSome] }

/-- Modelled from the spec: `util::File::rename(old, new)`, which tolerates a missing
source (`plog/Util.h` is missing). An existing target is replaced, as POSIX `rename`
does. Both arguments are keys of `files`: the appender calls it on the names it
generates, which lie in the directory of the base file, where a rename whose source
exists succeeds; a caller-supplied target goes through `renamePath`. -/
def fileRename (src dst : NString) (s : State) : State :=
  let ev := Event.renamed src dst (s.files src).isSome (s.files dst).isSome
  match s.files src with
  | none => { s with trace := s.trace ++ [ev] }
  | some content =>
    if src = dst then { s with trace := s.trace ++ [ev] }
    else
      { s with files := Function.update (Function.update s.files dst (some content)) src none,
               trace := s.trace ++ [ev] }

/-- Modelled from the spec: `util::File::unlink(path)` on a caller-supplied path
(`plog/Util.h` is missing). A path that denotes no file removes nothing. -/
def unlinkPath (path : NString) (s : State) : State :=
  match s.resolve path with
  | none => s.log (Event.unlinked path false)
  | some key =>
    { s with files := Function.update s.files key none,
             trace := s.trace ++ [Event.unlinked path (s.files key).isSome] }

/-- Modelled from the spec: `util::File::rename(old, new)` onto a caller-supplied path
(`plog/Util.h` is missing). The call fails, changing nothing, when the path denotes no
file that can be created; otherwise it is the rename onto the file the path denotes. -/
def renamePath (src path : NString) (s : State) : State :=
  match s.resolve path with
  | none => s.log (Event.renamed src path (s.files src).isSome false)
  | some key => fileRename src key s

/-- Private member `openLogFile()`. -/
def openLogFile {Record : Type} (p : Config Record) (s : State) : State :=
  let fileName := buildFileName p 0
  let r := fileOpen fileName s
  let s1 : State := r.2.setSize r.1
  if 0 = s1.m_fileSize then
    let w := fileWrite p.header s1
    let bytesWritten := w.1
    if bytesWritten > 0 then w.2.addSize bytesWritten
    else w.2
  else s1

/-- Two's complement wraparound into the range of the C++ type `int` (32 bits), the
result the usual targets give for an `int` operation that overflows. -/
def wrapInt (x : Int) : Int :=
  (x + 2147483648) % 4294967296 - 2147483648

/-- Result of an `int` computation of the appender. `m_maxFiles` is an `int`: when its
value is in the range of `int`, a result outside the range wraps around, which is what
the overflowing subtractions at `INT_MIN` do; a configuration whose `m_maxFiles` lies
outside that range, which no appender can hold, keeps unbounded arithmetic. -/
def intResult {Record : Type} (p : Config Record) (x : Int) : Int :=
  if -2147483648 ≤ p.m_maxFiles ∧ p.m_maxFiles ≤ 2147483647 then wrapInt x else x

/-- The `for` loop of `rollLogFiles`: `renameLoop p k` runs the iterations
`fileNumber = k - 1, k - 2, ..., 0`, each renaming index `fileNumber` to the `int`
`fileNumber + 1`. -/
def renameLoop {Record : Type} (p : Config Record) : Nat → State → State
  | 0, s => s
  | k + 1, s =>
    renameLoop p k
      (fileRename (buildFileName p (k : Int)) (buildFileName p (intResult p ((k : Int) + 1))) s)

/-- Public member `rollLogFiles()`. The last index is the `int` `m_maxFiles - 1`; the
loop starts at the `int` `m_maxFiles - 2` and runs while `fileNumber >= 0`, that is one
iteration more than its start when the start is not negative. The first trace entry is
a ghost marker of the call. -/
def rollLogFiles {Record : Type} (p : Config Record) (s : State) : State :=
  let s0 := s.log Event.roll
  let s1 := fileClose s0
  let lastFileName := buildFileName p (intResult p (p.m_maxFiles - 1))
  let s2 := fileUnlink lastFileName s1
  let s3 := renameLoop p (intResult p (p.m_maxFiles - 2) + 1).toNat s2
  (openLogFile p s3).clearFirstWrite

/-- State in which `rollLogFiles` reaches its call of `openLogFile` (lines 62-73). -/
def beforeReopen {Record : Type} (p : Config Record) (s : State) : State :=
  renameLoop p (intResult p (p.m_maxFiles - 2) + 1).toNat
    (fileUnlink (buildFileName p (intResult p (p.m_maxFiles - 1))) (fileClose (s.log Event.roll)))

/-- Public member `backupLogfile(newFilename)`. -/
def backupLogfile {Record : Type} (p : Config Record) (newFilename : NString) (s : State) :
    State :=
  let currentFilename := buildFileName p 0
  let s1 := fileClose s
  let s2 := unlinkPath newFilename s1
  let s3 := renamePath currentFilename newFilename s2
  (openLogFile p s3).clearFirstWrite

/-- The state in which `write` issues the record: after the lazy open of the first
call, or after the rotation when the trigger holds (lines 42-50). -/
def prepareWrite {Record : Type} (p : Config Record) (s : State) : State :=
  if s.m_firstWrite then
    (openLogFile p s).clearFirstWrite
  else if p.m_maxFiles > 0 ∧ s.m_fileSize > p.m_maxFileSize ∧ -1 ≠ s.m_fileSize then
    rollLogFiles p s
  else s

/-- Member `write(record)`. -/
def write {Record : Type} (p : Config Record) (record : Record) (s : State) : State :=
  let s1 := prepareWrite p s
  let w := fileWrite (p.convert record) s1
  let bytesWritten := w.1
  if bytesWritten > 0 then w.2.addSize bytesWritten
  else w.2

/-- Events appended to the trace between two states. -/
def eventsSince (s s' : State) : List Event :=
  s'.trace.drop s.trace.length

/-- A run of `write` calls, in order. -/
def writes {Record : Type} (p : Config Record) : List Record → State → State
  | [], s => s
  | r :: rs, s => writes p rs (write p r s)

/-- Configuration used in the worked examples: base name `Test`, extension `log`,
`maxFileSize` left at `0` (so clamped to the floor), the UTF-8 byte order mark as the
header and records given directly by their encoded bytes. -/
def demoConfig (maxFiles : Int) : Config Bytes :=
  FileRenameAppender "Test".toList "log".toList 0 maxFiles [239, 187, 191] (fun b => b)

/-- An appender that has already written: the handle is open on `Test.log`, whose
content is `content`, and `m_fileSize` is its length. -/
def demoActive (content : Bytes) (others : NString → Option Bytes) : State :=
  { m_file := some "Test.log".toList
    m_fileSize := content.length
    m_firstWrite := false
    files := Function.update others "Test.log".toList (some content)
    script := []
    trace := [] }

/-- Handle invariant of an appender all of whose opens succeeded: once the first-write
flag is cleared, the handle is open on the base file, which exists. -/
def HandleOnBase {Record : Type} (p : Config Record) (s : State) : Prop :=
  s.m_firstWrite = false →
    s.m_file = some (buildFileName p 0) ∧ (s.files (buildFileName p 0)).isSome = true

/-- Size invariant of an appender all of whose calls succeeded: once the first-write
flag is cleared, the handle is open on the base file and `m_fileSize` is the byte
length of that file. -/
def Synced {Record : Type} (p : Config Record) (s : State) : Prop :=
  s.m_firstWrite = false →
    s.m_file = some (buildFileName p 0)
      ∧ ∃ c : Bytes, s.files (buildFileName p 0) = some c ∧ s.m_fileSize = (c.length : Int)

/-- Encoded bytes of a run of records, in order. -/
def encodeAll {Record : Type} (p : Config Record) : List Record → Bytes
  | [] => []
  | r :: rs => p.convert r ++ encodeAll p rs

/-- Public operations of the appender. -/
inductive Op (Record : Type) where
  | write (record : Record)
  | rollLogFiles
  | backupLogfile (newFilename : NString)

/-- One public call. -/
def step {Record : Type} (p : Config Record) (s : State) : Op Record → State
  | Op.write r => write p r s
  | Op.rollLogFiles => rollLogFiles p s
  | Op.backupLogfile newFilename => backupLogfile p newFilename s

/-- A sequence of public calls, in order. -/
def run {Record : Type} (p : Config Record) : List (Op Record) → State → State
  | [], s => s
  | o :: os, s => run p os (step p s o)

/-- One step of the size ledger read off the trace: an `open` sets the size it reported
and resets the count of bytes persisted since; a write adds the count it reported when
that count is positive. -/
def ledgerStep : Int × Int → Event → Int × Int
  | (_, _), Event.opened _ _ size => (size, 0)
  | (o, b), Event.wrote _ reported => (o, if reported > 0 then b + reported else b)
  | st, _ => st

/-- Size ledger of a trace: the size reported by the last `open` and the bytes persisted
since then. -/
def ledger (t : List Event) : Int × Int :=
  t.foldl ledgerStep (0, 0)

/-- Size the last `open` of the trace reported (0 when there was none). -/
def sizeAtOpen (t : List Event) : Int := (ledger t).1

/-- Number of bytes persisted by the writes that follow the last `open` of the trace. -/
def bytesSinceOpen (t : List Event) : Int := (ledger t).2

/-- Whether a close has been seen since the last `open`, after the events `t`, starting
from the flag `b`. -/
def closedAfter (b : Bool) : List Event → Bool
  | [] => b
  | Event.closed :: t => closedAfter true t
  | Event.opened _ _ _ :: t => closedAfter false t
  | _ :: t => closedAfter b t

/-- Handle discipline of a trace: every `open` finds the handle closed and comes after a
close that no other `open` follows; the flag `b` tells whether an `open` is allowed
before any close (nothing has been opened yet). -/
def opensGuarded (b : Bool) : List Event → Bool
  | [] => true
  | Event.closed :: t => opensGuarded true t
  | Event.opened _ wasOpen _ :: t => b && !wasOpen && opensGuarded false t
  | _ :: t => opensGuarded b t

/-- Value of a decimal digit character. -/
def digitVal (c : Char) : Nat := c.toNat - 48

/-- Reading of a decimal rendering, most significant digit first. -/
def parseDec (cs : List Char) : Nat := cs.foldl (fun acc c => acc * 10 + digitVal c) 0

/-! ## Decimal rendering of rotation indices -/

theorem digitVal_digitChar (d : Nat) (h : d < 10) : digitVal (Nat.digitChar d) = d := by
  interval_cases d <;> decide

theorem toDigitsCore_acc (fuel : Nat) : ∀ (n : Nat) (acc : List Char),
    Nat.toDigitsCore 10 fuel n acc = Nat.toDigitsCore 10 fuel n [] ++ acc := by
  induction fuel with
  | zero => intro n acc; simp [Nat.toDigitsCore]
  | succ f ih =>
    intro n acc
    simp only [Nat.toDigitsCore]
    split
    · simp
    · rw [ih (n / 10) (Nat.digitChar (n % 10) :: acc), ih (n / 10) [Nat.digitChar (n % 10)]]
      simp

theorem parseDec_snoc (cs : List Char) (c : Char) :
    parseDec (cs ++ [c]) = parseDec cs * 10 + digitVal c := by
  simp [parseDec, List.foldl_append]

theorem parseDec_toDigitsCore (fuel : Nat) : ∀ n : Nat, n < fuel →
    parseDec (Nat.toDigitsCore 10 fuel n []) = n := by
  induction fuel with
  | zero => intro n h; omega
  | succ f ih =>
    intro n h
    simp only [Nat.toDigitsCore]
    split
    · rename_i h0
      have hn : n < 10 := by omega
      have : n % 10 = n := Nat.mod_eq_of_lt hn
      simp [parseDec, this, digitVal_digitChar n hn]
    · rename_i h0
      rw [toDigitsCore_acc, parseDec_snoc, ih (n / 10) (by omega),
        digitVal_digitChar _ (Nat.mod_lt _ (by decide))]
      omega

theorem parseDec_toDigits (n : Nat) : parseDec (Nat.toDigits 10 n) = n :=
  parseDec_toDigitsCore (n + 1) n (Nat.lt_succ_self n)

theorem toDigits_inj {a b : Nat} (h : Nat.toDigits 10 a = Nat.toDigits 10 b) : a = b := by
  have := congrArg parseDec h
  rwa [parseDec_toDigits, parseDec_toDigits] at this

theorem toDigits_ne_nil (n : Nat) : Nat.toDigits 10 n ≠ [] := by
  unfold Nat.toDigits
  simp only [Nat.toDigitsCore]
  split
  · simp
  · rw [toDigitsCore_acc]; simp

/-- Distinct non-negative rotation indices give distinct file names. -/
theorem buildFileName_inj {Record : Type} (p : Config Record) {i j : Int}
    (hi : 0 ≤ i) (hj : 0 ≤ j) (h : buildFileName p i = buildFileName p j) : i = j := by
  unfold buildFileName at h
  rw [List.append_left_inj] at h
  rw [List.append_right_inj] at h
  by_cases h1 : i > 0 <;> by_cases h2 : j > 0
  · simp only [h1, h2, if_true] at h
    have := toDigits_inj (List.cons.inj h).2
    omega
  · simp only [h1, h2, if_true, if_false] at h
    exact absurd h (by simp)
  · simp only [h1, h2, if_true, if_false] at h
    exact absurd h (by simp)
  · omega


/-! ## Frame lemmas for the state setters and the file primitives -/

@[simp] theorem setSize_m_file (s : State) (z : Int) : (s.setSize z).m_file = s.m_file := rfl
@[simp] theorem setSize_m_fileSize (s : State) (z : Int) : (s.setSize z).m_fileSize = z := rfl
@[simp] theorem setSize_m_firstWrite (s : State) (z : Int) :
    (s.setSize z).m_firstWrite = s.m_firstWrite := rfl
@[simp] theorem setSize_files (s : State) (z : Int) : (s.setSize z).files = s.files := rfl
@[simp] theorem setSize_script (s : State) (z : Int) : (s.setSize z).script = s.script := rfl
@[simp] theorem setSize_trace (s : State) (z : Int) : (s.setSize z).trace = s.trace := rfl

@[simp] theorem addSize_m_file (s : State) (z : Int) : (s.addSize z).m_file = s.m_file := rfl
@[simp] theorem addSize_m_fileSize (s : State) (z : Int) :
    (s.addSize z).m_fileSize = s.m_fileSize + z := rfl
@[simp] theorem addSize_m_firstWrite (s : State) (z : Int) :
    (s.addSize z).m_firstWrite = s.m_firstWrite := rfl
@[simp] theorem addSize_files (s : State) (z : Int) : (s.addSize z).files = s.files := rfl
@[simp] theorem addSize_script (s : State) (z : Int) : (s.addSize z).script = s.script := rfl
@[simp] theorem addSize_trace (s : State) (z : Int) : (s.addSize z).trace = s.trace := rfl

@[simp] theorem clearFirstWrite_m_file (s : State) : s.clearFirstWrite.m_file = s.m_file := rfl
@[simp] theorem clearFirstWrite_m_fileSize (s : State) :
    s.clearFirstWrite.m_fileSize = s.m_fileSize := rfl
@[simp] theorem clearFirstWrite_m_firstWrite (s : State) :
    s.clearFirstWrite.m_firstWrite = false := rfl
@[simp] theorem clearFirstWrite_files (s : State) : s.clearFirstWrite.files = s.files := rfl
@[simp] theorem clearFirstWrite_script (s : State) : s.clearFirstWrite.script = s.script := rfl
@[simp] theorem clearFirstWrite_trace (s : State) : s.clearFirstWrite.trace = s.trace := rfl

@[simp] theorem log_m_file (s : State) (e : Event) : (s.log e).m_file = s.m_file := rfl
@[simp] theorem log_m_fileSize (s : State) (e : Event) : (s.log e).m_fileSize = s.m_fileSize := rfl
@[simp] theorem log_m_firstWrite (s : State) (e : Event) :
    (s.log e).m_firstWrite = s.m_firstWrite := rfl
@[simp] theorem log_files (s : State) (e : Event) : (s.log e).files = s.files := rfl
@[simp] theorem log_script (s : State) (e : Event) : (s.log e).script = s.script := rfl
@[simp] theorem log_trace (s : State) (e : Event) : (s.log e).trace = s.trace ++ [e] := rfl

@[simp] theorem fileClose_files (s : State) : (fileClose s).files = s.files := rfl
@[simp] theorem fileClose_m_file (s : State) : (fileClose s).m_file = none := rfl
@[simp] theorem fileClose_script (s : State) : (fileClose s).script = s.script := rfl
@[simp] theorem fileClose_trace (s : State) :
    (fileClose s).trace = s.trace ++ [Event.closed] := rfl
@[simp] theorem fileClose_m_fileSize (s : State) : (fileClose s).m_fileSize = s.m_fileSize := rfl
@[simp] theorem fileClose_m_firstWrite (s : State) :
    (fileClose s).m_firstWrite = s.m_firstWrite := rfl

@[simp] theorem fileUnlink_files (name : NString) (s : State) :
    (fileUnlink name s).files = Function.update s.files name none := rfl
@[simp] theorem fileUnlink_m_file (name : NString) (s : State) :
    (fileUnlink name s).m_file = s.m_file := rfl
@[simp] theorem fileUnlink_script (name : NString) (s : State) :
    (fileUnlink name s).script = s.script := rfl
@[simp] theorem fileUnlink_trace (name : NString) (s : State) :
    (fileUnlink name s).trace = s.trace ++ [Event.unlinked name (s.files name).isSome] := rfl
@[simp] theorem fileUnlink_m_fileSize (name : NString) (s : State) :
    (fileUnlink name s).m_fileSize = s.m_fileSize := rfl
@[simp] theorem fileUnlink_m_firstWrite (name : NString) (s : State) :
    (fileUnlink name s).m_firstWrite = s.m_firstWrite := rfl

@[simp] theorem fileRename_m_file (a b : NString) (s : State) :
    (fileRename a b s).m_file = s.m_file := by
  unfold fileRename; split <;> [rfl; (split <;> rfl)]
@[simp] theorem fileRename_script (a b : NString) (s : State) :
    (fileRename a b s).script = s.script := by
  unfold fileRename; split <;> [rfl; (split <;> rfl)]
@[simp] theorem fileRename_m_fileSize (a b : NString) (s : State) :
    (fileRename a b s).m_fileSize = s.m_fileSize := by
  unfold fileRename; split <;> [rfl; (split <;> rfl)]
@[simp] theorem fileRename_m_firstWrite (a b : NString) (s : State) :
    (fileRename a b s).m_firstWrite = s.m_firstWrite := by
  unfold fileRename; split <;> [rfl; (split <;> rfl)]
@[simp] theorem fileRename_trace (a b : NString) (s : State) :
    (fileRename a b s).trace
      = s.trace ++ [Event.renamed a b (s.files a).isSome (s.files b).isSome] := by
  unfold fileRename; split <;> [rfl; (split <;> rfl)]

/-- File system after a rename whose source and target differ. -/
theorem fileRename_files (a b : NString) (s : State) (hab : a ≠ b) (n : NString) :
    (fileRename a b s).files n
      = if n = a then none
        else if n = b then (match s.files a with | none => s.files b | some c => some c)
        else s.files n := by
  unfold fileRename
  cases h : s.files a with
  | none =>
    simp only
    split_ifs with h1 h2
    · rw [h1, h]
    · rw [h2]
    · rfl
  | some c =>
    simp only [hab, if_false, Function.update_apply]

/-- A rename onto the same name changes no file. -/
theorem fileRename_self_files (a : NString) (s : State) : (fileRename a a s).files = s.files := by
  unfold fileRename; split <;> simp

@[simp] theorem fileOpen_m_firstWrite (name : NString) (s : State) :
    (fileOpen name s).2.m_firstWrite = s.m_firstWrite := by
  unfold fileOpen; split <;> rfl
@[simp] theorem fileOpen_m_fileSize (name : NString) (s : State) :
    (fileOpen name s).2.m_fileSize = s.m_fileSize := by
  unfold fileOpen; split <;> rfl
@[simp] theorem fileOpen_trace (name : NString) (s : State) :
    (fileOpen name s).2.trace
      = s.trace ++ [Event.opened name s.m_file.isSome (fileOpen name s).1] := by
  unfold fileOpen; split <;> simp

theorem fileOpen_files_of_ne (name : NString) (s : State) (n : NString) (h : n ≠ name) :
    (fileOpen name s).2.files n = s.files n := by
  unfold fileOpen; split <;> simp [Function.update_noteq h]

theorem fileOpen_m_file (name : NString) (s : State) :
    (fileOpen name s).2.m_file = none ∨ (fileOpen name s).2.m_file = some name := by
  unfold fileOpen; split <;> simp

/-- An `open` that is not scripted to fail. -/
theorem fileOpen_ok (name : NString) (s : State) (h : s.script = []) :
    fileOpen name s
      = ((((s.files name).getD []).length : Int),
          { s with m_file := some name,
                   files := Function.update s.files name (some ((s.files name).getD [])),
                   trace := s.trace ++ [Event.opened name s.m_file.isSome
                              ((s.files name).getD []).length] }) := by
  simp [fileOpen, h]

@[simp] theorem fileWrite_m_firstWrite (d : Bytes) (s : State) :
    (fileWrite d s).2.m_firstWrite = s.m_firstWrite := by
  unfold fileWrite; split <;> [rfl; (split <;> rfl)]
@[simp] theorem fileWrite_m_fileSize (d : Bytes) (s : State) :
    (fileWrite d s).2.m_fileSize = s.m_fileSize := by
  unfold fileWrite; split <;> [rfl; (split <;> rfl)]
@[simp] theorem fileWrite_m_file (d : Bytes) (s : State) :
    (fileWrite d s).2.m_file = s.m_file := by
  unfold fileWrite; split <;> [rfl; (split <;> rfl)]
@[simp] theorem fileWrite_trace (d : Bytes) (s : State) :
    (fileWrite d s).2.trace = s.trace ++ [Event.wrote d (fileWrite d s).1] := by
  unfold fileWrite; split <;> [rfl; (split <;> simp)]

theorem appendTo_of_ne (files : NString → Option Bytes) (name : NString) (d : Bytes)
    (n : NString) (h : n ≠ name) : appendTo files name d n = files n := by
  cases hf : files name <;> simp [appendTo, hf, Function.update_noteq h]

theorem appendTo_same (files : NString → Option Bytes) (name : NString) (d : Bytes) :
    appendTo files name d name = (files name).map (fun c => c ++ d) := by
  cases hf : files name <;> simp [appendTo, hf]

/-- A write changes no file other than the one the handle is open on. -/
theorem fileWrite_files_of_ne (d : Bytes) (s : State) (n : NString)
    (h : s.m_file ≠ some n) : (fileWrite d s).2.files n = s.files n := by
  unfold fileWrite
  split
  · rfl
  · rename_i name hname
    have hn : n ≠ name := by
      intro e; apply h; rw [hname, e]
    split <;> simp [appendTo_of_ne _ _ _ _ hn]

/-- What a write persists is an initial segment of the data, appended to the open
file, and the reported count is its length, or the sentinel when nothing is written. -/
theorem fileWrite_spec (d : Bytes) (s : State) (name : NString) (h : s.m_file = some name) :
    ∃ k : Nat, (fileWrite d s).2.files = appendTo s.files name (d.take k)
      ∧ ((fileWrite d s).1 = (d.take k).length
          ∨ ((fileWrite d s).1 = -1 ∧ d.take k = [])) := by
  unfold fileWrite
  rw [h]
  simp only
  split
  · refine ⟨0, ?_, Or.inr ⟨rfl, by simp⟩⟩
    funext n
    by_cases hn : n = name
    · subst hn; simp [appendTo_same]
    · simp [appendTo_of_ne _ _ _ _ hn]
  · rename_i k rest _
    exact ⟨k, rfl, Or.inl rfl⟩
  · exact ⟨d.length, by simp, Or.inl (by simp)⟩

/-- A `write` on an open handle that is not scripted to fail. -/
theorem fileWrite_ok (d : Bytes) (s : State) (name : NString) (h : s.m_file = some name)
    (hs : s.script = []) :
    fileWrite d s
      = ((d.length : Int),
          { s with files := appendTo s.files name d,
                   trace := s.trace ++ [Event.wrote d d.length] }) := by
  unfold fileWrite
  rw [h]
  simp only [hs, List.tail_nil]


/-! ## `openLogFile` -/

@[simp] theorem openLogFile_m_firstWrite {Record : Type} (p : Config Record) (s : State) :
    (openLogFile p s).m_firstWrite = s.m_firstWrite := by
  unfold openLogFile
  simp only
  split_ifs <;> simp

theorem openLogFile_m_file {Record : Type} (p : Config Record) (s : State) :
    (openLogFile p s).m_file = none ∨ (openLogFile p s).m_file = some (buildFileName p 0) := by
  unfold openLogFile
  simp only
  split_ifs <;> simp <;> exact fileOpen_m_file _ _

theorem openLogFile_files_of_ne {Record : Type} (p : Config Record) (s : State) (n : NString)
    (h : n ≠ buildFileName p 0) : (openLogFile p s).files n = s.files n := by
  have hh : ∀ sz : Int,
      ((fileOpen (buildFileName p 0) s).2.setSize sz).m_file ≠ some n := by
    intro sz
    rcases fileOpen_m_file (buildFileName p 0) s with h1 | h1 <;> simp [h1]
    exact fun e => h e.symm
  unfold openLogFile
  simp only
  split_ifs <;> simp [fileWrite_files_of_ne _ _ _ (hh _), fileOpen_files_of_ne _ _ _ h]

/-- Reopening when every call succeeds: an absent or empty base file receives the
header, an existing non-empty one is kept and sized. -/
theorem openLogFile_ok {Record : Type} (p : Config Record) (s : State) (hs : s.script = []) :
    openLogFile p s
      = if (s.files (buildFileName p 0)).getD [] = [] then
          { s with m_file := some (buildFileName p 0),
                   m_fileSize := p.header.length,
                   files := Function.update s.files (buildFileName p 0) (some p.header),
                   trace := s.trace ++ [Event.opened (buildFileName p 0) s.m_file.isSome 0,
                              Event.wrote p.header p.header.length] }
        else
          { s with m_file := some (buildFileName p 0),
                   m_fileSize := ((s.files (buildFileName p 0)).getD []).length,
                   files := Function.update s.files (buildFileName p 0)
                              (some ((s.files (buildFileName p 0)).getD [])),
                   trace := s.trace ++ [Event.opened (buildFileName p 0) s.m_file.isSome
                              ((s.files (buildFileName p 0)).getD []).length] } := by
  unfold openLogFile
  simp only
  rw [fileOpen_ok _ _ hs]
  simp only [State.setSize]
  by_cases hc : (s.files (buildFileName p 0)).getD [] = []
  · simp only [hc, List.length_nil, Nat.cast_zero, if_true]
    simp only [fileWrite, hs, List.tail_nil, State.addSize]
    have : appendTo (Function.update s.files (buildFileName p 0) (some []))
        (buildFileName p 0) p.header
        = Function.update s.files (buildFileName p 0) (some p.header) := by
      simp [appendTo]
    rw [this]
    by_cases hh : (p.header.length : Int) > 0
    · simp [hh]
    · have h0 : p.header.length = 0 := by omega
      simp [h0]
  · have hne : ¬ (0 : Int) = ((s.files (buildFileName p 0)).getD []).length := by
      intro e
      apply hc
      apply List.length_eq_zero.mp
      omega
    simp only [hne, hc, if_false]

/-! ## Traces -/

theorem eventsSince_of_trace {s s' : State} {evs : List Event}
    (h : s'.trace = s.trace ++ evs) : eventsSince s s' = evs := by
  unfold eventsSince
  rw [h, List.drop_left]

theorem openLogFile_trace {Record : Type} (p : Config Record) (s : State) :
    (openLogFile p s).trace
      = s.trace ++ Event.opened (buildFileName p 0) s.m_file.isSome
            (fileOpen (buildFileName p 0) s).1
          :: (if 0 = (fileOpen (buildFileName p 0) s).1 then
                [Event.wrote p.header
                  (fileWrite p.header
                    ((fileOpen (buildFileName p 0) s).2.setSize
                      (fileOpen (buildFileName p 0) s).1)).1]
              else []) := by
  unfold openLogFile
  simp only [setSize_m_fileSize]
  by_cases h : (0 : Int) = (fileOpen (buildFileName p 0) s).1
  · rw [if_pos h, if_pos h]
    split_ifs <;> simp
  · rw [if_neg h, if_neg h]
    simp

theorem write_trace {Record : Type} (p : Config Record) (r : Record) (s : State) :
    (write p r s).trace
      = (prepareWrite p s).trace
          ++ [Event.wrote (p.convert r) (fileWrite (p.convert r) (prepareWrite p s)).1] := by
  unfold write
  simp only
  split_ifs <;> simp

theorem renameLoop_trace {Record : Type} (p : Config Record) (k : Nat) : ∀ s : State,
    ∃ evs : List Event, (renameLoop p k s).trace = s.trace ++ evs
      ∧ ∀ e ∈ evs, ∃ a b x y, e = Event.renamed a b x y := by
  induction k with
  | zero => intro s; exact ⟨[], by simp [renameLoop], by simp⟩
  | succ k ih =>
    intro s
    obtain ⟨evs, h1, h2⟩ := ih (fileRename (buildFileName p (k : Int))
      (buildFileName p (intResult p ((k : Int) + 1))) s)
    refine ⟨Event.renamed (buildFileName p (k : Int))
      (buildFileName p (intResult p ((k : Int) + 1)))
      (s.files (buildFileName p (k : Int))).isSome
      (s.files (buildFileName p (intResult p ((k : Int) + 1)))).isSome :: evs, ?_, ?_⟩
    · simp only [renameLoop]
      rw [h1, fileRename_trace, List.append_assoc]
      rfl
    · intro e he
      rcases List.mem_cons.mp he with rfl | he
      · exact ⟨_, _, _, _, rfl⟩
      · exact h2 e he

theorem rollLogFiles_trace {Record : Type} (p : Config Record) (s : State) :
    ∃ evs : List Event, (rollLogFiles p s).trace = s.trace ++ Event.roll :: evs := by
  obtain ⟨evs, h1, _⟩ := renameLoop_trace p (intResult p (p.m_maxFiles - 2) + 1).toNat
    (fileUnlink (buildFileName p (intResult p (p.m_maxFiles - 1)))
      (fileClose (s.log Event.roll)))
  unfold rollLogFiles
  simp only [clearFirstWrite_trace, openLogFile_trace, h1]
  simp only [fileUnlink_trace, fileClose_trace, log_trace, List.append_assoc,
    List.singleton_append, List.cons_append]
  exact ⟨_, rfl⟩

theorem prepareWrite_first {Record : Type} (p : Config Record) (s : State)
    (h : s.m_firstWrite = true) : prepareWrite p s = (openLogFile p s).clearFirstWrite := by
  simp [prepareWrite, h]

theorem prepareWrite_roll {Record : Type} (p : Config Record) (s : State)
    (h : s.m_firstWrite = false)
    (hc : p.m_maxFiles > 0 ∧ s.m_fileSize > p.m_maxFileSize ∧ -1 ≠ s.m_fileSize) :
    prepareWrite p s = rollLogFiles p s := by
  simp [prepareWrite, h, hc]

theorem prepareWrite_keep {Record : Type} (p : Config Record) (s : State)
    (h : s.m_firstWrite = false)
    (hc : ¬ (p.m_maxFiles > 0 ∧ s.m_fileSize > p.m_maxFileSize ∧ -1 ≠ s.m_fileSize)) :
    prepareWrite p s = s := by
  unfold prepareWrite
  rw [if_neg (by simp [h]), if_neg hc]

/-! ## What `open` reports -/

theorem fileOpen_reported (name : NString) (s : State) :
    (fileOpen name s).1 = -1
      ∨ (fileOpen name s).1 = (((s.files name).getD []).length : Int) := by
  unfold fileOpen; split <;> simp

theorem fileOpen_of_zero (name : NString) (s : State) (h : (fileOpen name s).1 = 0) :
    (fileOpen name s).2.m_file = some name
      ∧ (fileOpen name s).2.files = Function.update s.files name (some []) := by
  unfold fileOpen at h ⊢
  split at h
  · simp at h
  · rename_i hne
    simp only at h
    have hc : (s.files name).getD [] = [] := List.length_eq_zero.mp (by omega)
    simp [hc]

theorem fileOpen_files_of_ne_zero (name : NString) (s : State)
    (h : (fileOpen name s).1 ≠ 0) (n : NString) : (fileOpen name s).2.files n = s.files n := by
  unfold fileOpen at h ⊢
  split
  · rfl
  · simp only at h ⊢
    by_cases hn : n = name
    · subst hn
      cases hf : s.files n with
      | none => simp [hf] at h
      | some c => simp
    · simp [Function.update_noteq hn]

/-- State after `openLogFile` when `open` reported size zero: some initial segment of
the header has been persisted and `m_fileSize` is its length. -/
theorem openLogFile_of_zero {Record : Type} (p : Config Record) (s : State)
    (h : (fileOpen (buildFileName p 0) s).1 = 0) :
    ∃ k : Nat, (openLogFile p s).files (buildFileName p 0) = some (p.header.take k)
      ∧ (openLogFile p s).m_fileSize = ((p.header.take k).length : Int) := by
  obtain ⟨hm, hf⟩ := fileOpen_of_zero _ _ h
  have hm1 : ((fileOpen (buildFileName p 0) s).2.setSize 0).m_file
      = some (buildFileName p 0) := by simp [hm]
  obtain ⟨k, hk, hrep⟩ := fileWrite_spec p.header _ _ hm1
  refine ⟨k, ?_, ?_⟩
  · unfold openLogFile
    simp only [setSize_m_fileSize, h, if_true]
    split_ifs <;> simp [hk, hf, appendTo_same]
  · unfold openLogFile
    simp only [setSize_m_fileSize, h, if_true]
    split_ifs with hpos
    · rcases hrep with e | ⟨e, _⟩
      · simp [h, e]
      · rw [e] at hpos; omega
    · rcases hrep with e | ⟨_, e⟩
      · rw [e] at hpos
        simp only [fileWrite_m_fileSize, setSize_m_fileSize]
        omega
      · simp [e]

/-! ## The descending rename loop -/

theorem buildFileName_ne {Record : Type} (p : Config Record) {i j : Nat} (h : i ≠ j) :
    buildFileName p (i : Int) ≠ buildFileName p (j : Int) := by
  intro e
  have := buildFileName_inj p (Int.natCast_nonneg i) (Int.natCast_nonneg j) e
  exact h (by exact_mod_cast this)

@[simp] theorem renameLoop_m_file {Record : Type} (p : Config Record) (k : Nat) :
    ∀ s : State, (renameLoop p k s).m_file = s.m_file := by
  induction k with
  | zero => intro s; rfl
  | succ k ih => intro s; simp [renameLoop, ih]

@[simp] theorem renameLoop_script {Record : Type} (p : Config Record) (k : Nat) :
    ∀ s : State, (renameLoop p k s).script = s.script := by
  induction k with
  | zero => intro s; rfl
  | succ k ih => intro s; simp [renameLoop, ih]

@[simp] theorem renameLoop_m_fileSize {Record : Type} (p : Config Record) (k : Nat) :
    ∀ s : State, (renameLoop p k s).m_fileSize = s.m_fileSize := by
  induction k with
  | zero => intro s; rfl
  | succ k ih => intro s; simp [renameLoop, ih]

@[simp] theorem renameLoop_m_firstWrite {Record : Type} (p : Config Record) (k : Nat) :
    ∀ s : State, (renameLoop p k s).m_firstWrite = s.m_firstWrite := by
  induction k with
  | zero => intro s; rfl
  | succ k ih => intro s; simp [renameLoop, ih]

theorem wrapInt_of_range {x : Int} (h1 : -2147483648 ≤ x) (h2 : x ≤ 2147483647) :
    wrapInt x = x := by
  unfold wrapInt
  omega

theorem intResult_of_range {Record : Type} (p : Config Record) {x : Int}
    (h1 : -2147483648 ≤ x) (h2 : x ≤ 2147483647) : intResult p x = x := by
  unfold intResult
  split_ifs
  · exact wrapInt_of_range h1 h2
  · rfl

/-- Above `INT_MIN + 1` the subtraction `m_maxFiles - 1` does not overflow. -/
theorem intResult_sub_one {Record : Type} (p : Config Record)
    (hno : -2147483646 ≤ p.m_maxFiles) : intResult p (p.m_maxFiles - 1) = p.m_maxFiles - 1 := by
  unfold intResult
  split_ifs with h
  · exact wrapInt_of_range (by omega) (by omega)
  · rfl

/-- Above `INT_MIN + 1` the subtraction `m_maxFiles - 2` does not overflow. -/
theorem intResult_sub_two {Record : Type} (p : Config Record)
    (hno : -2147483646 ≤ p.m_maxFiles) : intResult p (p.m_maxFiles - 2) = p.m_maxFiles - 2 := by
  unfold intResult
  split_ifs with h
  · exact wrapInt_of_range (by omega) (by omega)
  · rfl

/-- The loop index never overflows on its way up to `m_maxFiles - 1`. -/
theorem intResult_succ {Record : Type} (p : Config Record) (i : Nat)
    (hi : i < (p.m_maxFiles - 1).toNat) : intResult p ((i : Int) + 1) = (i : Int) + 1 := by
  unfold intResult
  split_ifs with h
  · exact wrapInt_of_range (by omega) (by omega)
  · rfl

theorem loopCount_eq {Record : Type} (p : Config Record) (hno : -2147483646 ≤ p.m_maxFiles) :
    (intResult p (p.m_maxFiles - 2) + 1).toNat = (p.m_maxFiles - 1).toNat := by
  rw [intResult_sub_two p hno]
  congr 1
  omega

/-- Effect of the loop started with its first target free: every index below `k` moves
up by one, index 0 is vacated, nothing else changes, and every rename finds its
target absent. -/
theorem renameLoop_spec {Record : Type} (p : Config Record) (k : Nat) :
    (∀ i : Nat, i < k → intResult p ((i : Int) + 1) = (i : Int) + 1) → ∀ s : State,
    s.files (buildFileName p (k : Int)) = none →
    (∀ i : Nat, i < k →
        (renameLoop p k s).files (buildFileName p ((i : Int) + 1))
          = s.files (buildFileName p (i : Int)))
      ∧ (0 < k → (renameLoop p k s).files (buildFileName p 0) = none)
      ∧ (∀ n : NString, (∀ i : Nat, i ≤ k → n ≠ buildFileName p (i : Int)) →
          (renameLoop p k s).files n = s.files n)
      ∧ ∃ evs : List Event, (renameLoop p k s).trace = s.trace ++ evs
          ∧ (∀ e ∈ evs, ∃ a b x, e = Event.renamed a b x false)
          ∧ (∀ i : Nat, i < k →
              Event.renamed (buildFileName p (i : Int)) (buildFileName p ((i : Int) + 1))
                (s.files (buildFileName p (i : Int))).isSome false ∈ evs) := by
  induction k with
  | zero =>
    intro _ s _
    refine ⟨fun i hi => absurd hi (by omega), fun h => absurd h (by omega),
      fun n _ => rfl, [], by simp [renameLoop], by simp, fun i hi => absurd hi (by omega)⟩
  | succ k ih =>
    intro hw s hfree
    have hren : renameLoop p (k + 1) s
        = renameLoop p k
            (fileRename (buildFileName p (k : Int)) (buildFileName p ((k : Int) + 1)) s) := by
      simp only [renameLoop]
      rw [hw k (Nat.lt_succ_self k)]
    have hfree1 : s.files (buildFileName p ((k : Int) + 1)) = none := by
      simpa using hfree
    have hne : buildFileName p (k : Int) ≠ buildFileName p ((k : Int) + 1) := by
      have := buildFileName_ne p (Nat.ne_of_lt (Nat.lt_succ_self k))
      simpa using this
    have hfiles : ∀ n : NString,
        (fileRename (buildFileName p (k : Int)) (buildFileName p ((k : Int) + 1)) s).files n
          = if n = buildFileName p (k : Int) then none
            else if n = buildFileName p ((k : Int) + 1) then s.files (buildFileName p (k : Int))
            else s.files n := by
      intro n
      rw [fileRename_files _ _ _ hne, hfree1]
      cases s.files (buildFileName p (k : Int)) <;> rfl
    have hk0 : (fileRename (buildFileName p (k : Int)) (buildFileName p ((k : Int) + 1)) s).files
        (buildFileName p (k : Int)) = none := by
      rw [hfiles, if_pos rfl]
    obtain ⟨ih1, ih2, ih3, evs, ih4, ih5, ih6⟩ :=
      ih (fun i hi => hw i (Nat.lt_succ_of_lt hi)) _ hk0
    have hcast : ((k + 1 : Nat) : Int) = (k : Int) + 1 := by push_cast; rfl
    have hold : ∀ i : Nat, i < k →
        (fileRename (buildFileName p (k : Int)) (buildFileName p ((k : Int) + 1)) s).files
          (buildFileName p (i : Int)) = s.files (buildFileName p (i : Int)) := by
      intro i hi
      rw [hfiles, if_neg (buildFileName_ne p (by omega)), if_neg]
      have := buildFileName_ne p (show i ≠ k + 1 by omega)
      simpa using this
    refine ⟨?_, ?_, ?_, ?_⟩
    · intro i hi
      rw [hren]
      by_cases hik : i < k
      · rw [ih1 i hik, hold i hik]
      · have hik2 : i = k := by omega
        subst hik2
        rw [ih3]
        · rw [hfiles, if_neg (Ne.symm hne), if_pos rfl]
        · intro j hj
          have := buildFileName_ne p (show i + 1 ≠ j by omega)
          simpa using this
    · intro _
      rw [hren]
      by_cases hk : 0 < k
      · exact ih2 hk
      · have hk2 : k = 0 := by omega
        subst hk2
        simpa [renameLoop] using hk0
    · intro n hn
      rw [hren]
      rw [ih3 n (fun i hi => hn i (by omega)), hfiles,
        if_neg (hn k (by omega)), if_neg]
      have := hn (k + 1) (le_refl _)
      simpa using this
    · refine ⟨Event.renamed (buildFileName p (k : Int)) (buildFileName p ((k : Int) + 1))
        (s.files (buildFileName p (k : Int))).isSome false :: evs, ?_, ?_, ?_⟩
      · rw [hren]
        rw [ih4, fileRename_trace, hfree1, List.append_assoc]
        rfl
      · intro e he
        rcases List.mem_cons.mp he with rfl | he
        · exact ⟨_, _, _, rfl⟩
        · exact ih5 e he
      · intro i hi
        by_cases hik : i < k
        · have := ih6 i hik
          rw [hold i hik] at this
          exact List.mem_cons_of_mem _ this
        · have hik2 : i = k := by omega
          subst hik2
          exact List.mem_cons_self _ _

/-! ## `rollLogFiles` -/

theorem buildFileName_nonpos {Record : Type} (p : Config Record) {i : Int} (h : i ≤ 0) :
    buildFileName p i = buildFileName p 0 := by
  unfold buildFileName
  rw [if_neg (not_lt.mpr h), if_neg (lt_irrefl 0)]

theorem buildFileName_last {Record : Type} (p : Config Record) :
    buildFileName p (p.m_maxFiles - 1)
      = buildFileName p (((p.m_maxFiles - 1).toNat : Nat) : Int) := by
  by_cases h : 0 ≤ p.m_maxFiles - 1
  · rw [Int.toNat_of_nonneg h]
  · have h0 : (p.m_maxFiles - 1).toNat = 0 := Int.toNat_eq_zero.mpr (by omega)
    rw [h0, buildFileName_nonpos p (by omega)]
    rfl

theorem rollLogFiles_eq {Record : Type} (p : Config Record) (s : State) :
    rollLogFiles p s = (openLogFile p (beforeReopen p s)).clearFirstWrite := rfl

/-- Above `INT_MIN + 1` no subtraction of `rollLogFiles` overflows: the last index is
`m_maxFiles - 1` and the loop runs `m_maxFiles - 1` times when that is positive. -/
theorem beforeReopen_of_no_overflow {Record : Type} (p : Config Record) (s : State)
    (hno : -2147483646 ≤ p.m_maxFiles) :
    beforeReopen p s
      = renameLoop p (p.m_maxFiles - 1).toNat
          (fileUnlink (buildFileName p (p.m_maxFiles - 1)) (fileClose (s.log Event.roll))) := by
  unfold beforeReopen
  rw [loopCount_eq p hno, intResult_sub_one p hno]

/-- A loop that runs at least once ends by renaming the base file away. -/
theorem renameLoop_base_vacant {Record : Type} (p : Config Record) (k : Nat) : ∀ s : State,
    (renameLoop p (k + 1) s).files (buildFileName p 0) = none := by
  induction k with
  | zero =>
    intro s
    have h1 : intResult p (((0 : Nat) : Int) + 1) = 1 :=
      intResult_of_range p (by decide) (by decide)
    have hne : buildFileName p ((0 : Nat) : Int) ≠ buildFileName p 1 := by
      have := buildFileName_ne p (show 0 ≠ 1 by decide)
      simpa using this
    simp only [renameLoop]
    rw [h1, fileRename_files _ _ _ hne]
    simp
  | succ k ih =>
    intro s
    rw [show k + 1 + 1 = (k + 1) + 1 from rfl]
    simp only [renameLoop]
    exact ih _

/-- Whatever the value of `m_maxFiles`, the base name is vacant when `rollLogFiles`
reaches `openLogFile`. -/
theorem beforeReopen_base_vacant {Record : Type} (p : Config Record) (s : State) :
    (beforeReopen p s).files (buildFileName p 0) = none := by
  unfold beforeReopen
  cases hk : (intResult p (p.m_maxFiles - 2) + 1).toNat with
  | succ k => exact renameLoop_base_vacant p k _
  | zero =>
    have h0 : intResult p (p.m_maxFiles - 2) + 1 ≤ 0 := Int.toNat_eq_zero.mp hk
    have hlast : intResult p (p.m_maxFiles - 1) ≤ 0 := by
      unfold intResult wrapInt at h0 ⊢
      split_ifs at h0 ⊢ <;> omega
    simp only [renameLoop, fileUnlink_files]
    rw [buildFileName_nonpos p hlast]
    simp


theorem beforeReopen_spec {Record : Type} (p : Config Record) (s : State)
    (hno : -2147483646 ≤ p.m_maxFiles) :
    (∀ i : Nat, i < (p.m_maxFiles - 1).toNat →
        (beforeReopen p s).files (buildFileName p ((i : Int) + 1))
          = s.files (buildFileName p (i : Int)))
      ∧ (beforeReopen p s).files (buildFileName p 0) = none
      ∧ (∀ n : NString, (∀ i : Nat, i ≤ (p.m_maxFiles - 1).toNat → n ≠ buildFileName p (i : Int)) →
          (beforeReopen p s).files n = s.files n)
      ∧ ∃ evs : List Event,
          (beforeReopen p s).trace
            = s.trace ++ Event.roll :: Event.closed
                :: Event.unlinked (buildFileName p (p.m_maxFiles - 1))
                    (s.files (buildFileName p (p.m_maxFiles - 1))).isSome :: evs
          ∧ (∀ e ∈ evs, ∃ a b x, e = Event.renamed a b x false)
          ∧ (∀ i : Nat, i < (p.m_maxFiles - 1).toNat →
              Event.renamed (buildFileName p (i : Int)) (buildFileName p ((i : Int) + 1))
                (s.files (buildFileName p (i : Int))).isSome false ∈ evs) := by
  have hfree : (fileUnlink (buildFileName p (p.m_maxFiles - 1)) (fileClose (s.log Event.roll))).files
      (buildFileName p (((p.m_maxFiles - 1).toNat : Nat) : Int)) = none := by
    rw [← buildFileName_last]
    simp
  obtain ⟨h1, h2, h3, evs, h4, h5, h6⟩ :=
    renameLoop_spec p (p.m_maxFiles - 1).toNat (fun i hi => intResult_succ p i hi) _ hfree
  have hold := beforeReopen_of_no_overflow p s hno
  have hunl : ∀ i : Nat, i < (p.m_maxFiles - 1).toNat →
      (fileUnlink (buildFileName p (p.m_maxFiles - 1)) (fileClose (s.log Event.roll))).files
        (buildFileName p (i : Int)) = s.files (buildFileName p (i : Int)) := by
    intro i hi
    rw [fileUnlink_files, fileClose_files, log_files, buildFileName_last]
    exact Function.update_noteq (buildFileName_ne p (Nat.ne_of_lt hi)) _ _
  refine ⟨?_, ?_, ?_, evs, ?_, h5, ?_⟩
  · intro i hi
    rw [hold]
    rw [h1 i hi, hunl i hi]
  · rw [hold]
    by_cases hk : 0 < (p.m_maxFiles - 1).toNat
    · exact h2 hk
    · have hk0 : (p.m_maxFiles - 1).toNat = 0 := by omega
      rw [hk0] at hfree ⊢
      simpa [renameLoop] using hfree
  · intro n hn
    rw [hold]
    rw [h3 n hn]
    have := hn _ (le_refl _)
    rw [← buildFileName_last] at this
    simp [Function.update_noteq this]
  · rw [hold]
    rw [h4]
    simp
  · intro i hi
    have := h6 i hi
    rwa [hunl i hi] at this

@[simp] theorem beforeReopen_script {Record : Type} (p : Config Record) (s : State) :
    (beforeReopen p s).script = s.script := by
  simp [beforeReopen]

@[simp] theorem beforeReopen_m_file {Record : Type} (p : Config Record) (s : State) :
    (beforeReopen p s).m_file = none := by
  simp [beforeReopen]

/-- Names outside the visited chain keep their content. -/
theorem rollLogFiles_files_other {Record : Type} (p : Config Record) (s : State) (n : NString)
    (hno : -2147483646 ≤ p.m_maxFiles)
    (hn : ∀ i : Nat, i ≤ (p.m_maxFiles - 1).toNat → n ≠ buildFileName p (i : Int)) :
    (rollLogFiles p s).files n = s.files n := by
  rw [rollLogFiles_eq, clearFirstWrite_files, openLogFile_files_of_ne,
    (beforeReopen_spec p s hno).2.2.1 n hn]
  exact hn 0 (Nat.zero_le _)

/-- Shape of the trace of `rollLogFiles` for every value of `m_maxFiles`: marker, close,
one unlink, renames, then the reopening on a closed handle. -/
theorem rollLogFiles_trace_shape {Record : Type} (p : Config Record) (s : State) :
    ∃ (nm : NString) (ex : Bool) (evs : List Event),
      (rollLogFiles p s).trace
        = s.trace ++ (Event.roll :: Event.closed :: Event.unlinked nm ex :: (evs
            ++ Event.opened (buildFileName p 0) false
                (fileOpen (buildFileName p 0) (beforeReopen p s)).1
              :: (if 0 = (fileOpen (buildFileName p 0) (beforeReopen p s)).1 then
                    [Event.wrote p.header
                      (fileWrite p.header
                        ((fileOpen (buildFileName p 0) (beforeReopen p s)).2.setSize
                          (fileOpen (buildFileName p 0) (beforeReopen p s)).1)).1]
                  else [])))
      ∧ ∀ e ∈ evs, ∃ a b x y, e = Event.renamed a b x y := by
  obtain ⟨evs, h1, h2⟩ := renameLoop_trace p (intResult p (p.m_maxFiles - 2) + 1).toNat
    (fileUnlink (buildFileName p (intResult p (p.m_maxFiles - 1)))
      (fileClose (s.log Event.roll)))
  refine ⟨buildFileName p (intResult p (p.m_maxFiles - 1)),
    (s.files (buildFileName p (intResult p (p.m_maxFiles - 1)))).isSome, evs, ?_, h2⟩
  have hb : (beforeReopen p s).trace
      = s.trace ++ Event.roll :: Event.closed
          :: Event.unlinked (buildFileName p (intResult p (p.m_maxFiles - 1)))
              (s.files (buildFileName p (intResult p (p.m_maxFiles - 1)))).isSome :: evs := by
    unfold beforeReopen
    rw [h1]
    simp
  rw [rollLogFiles_eq, clearFirstWrite_trace, openLogFile_trace, hb, beforeReopen_m_file]
  simp

/-! ## Operations when every call succeeds -/

theorem openLogFile_script {Record : Type} (p : Config Record) (s : State) (hs : s.script = []) :
    (openLogFile p s).script = [] := by
  rw [openLogFile_ok p s hs]
  split_ifs <;> exact hs

theorem openLogFile_m_file_ok {Record : Type} (p : Config Record) (s : State)
    (hs : s.script = []) : (openLogFile p s).m_file = some (buildFileName p 0) := by
  rw [openLogFile_ok p s hs]
  split_ifs <;> rfl

/-- Content of the base file after a reopening in which every call succeeds. -/
theorem openLogFile_base_ok {Record : Type} (p : Config Record) (s : State)
    (hs : s.script = []) :
    (openLogFile p s).files (buildFileName p 0)
        = some (if (s.files (buildFileName p 0)).getD [] = [] then p.header
                else (s.files (buildFileName p 0)).getD [])
      ∧ (openLogFile p s).m_fileSize
        = ((if (s.files (buildFileName p 0)).getD [] = [] then p.header
                else (s.files (buildFileName p 0)).getD []).length : Int) := by
  rw [openLogFile_ok p s hs]
  split_ifs <;> simp

theorem rollLogFiles_ok {Record : Type} (p : Config Record) (s : State) (hs : s.script = []) :
    (rollLogFiles p s).m_file = some (buildFileName p 0)
      ∧ (rollLogFiles p s).script = []
      ∧ (rollLogFiles p s).m_fileSize = (p.header.length : Int)
      ∧ (rollLogFiles p s).m_firstWrite = false
      ∧ (rollLogFiles p s).files (buildFileName p 0) = some p.header := by
  have hs3 : (beforeReopen p s).script = [] := by simp [hs]
  have hb : (beforeReopen p s).files (buildFileName p 0) = none := beforeReopen_base_vacant p s
  obtain ⟨h1, h2⟩ := openLogFile_base_ok p _ hs3
  rw [hb] at h1 h2
  refine ⟨?_, ?_, ?_, rfl, ?_⟩
  · rw [rollLogFiles_eq, clearFirstWrite_m_file, openLogFile_m_file_ok p _ hs3]
  · rw [rollLogFiles_eq, clearFirstWrite_script, openLogFile_script p _ hs3]
  · rw [rollLogFiles_eq, clearFirstWrite_m_fileSize, h2]; simp
  · rw [rollLogFiles_eq, clearFirstWrite_files, h1]; simp

/-- The record write when the handle is open and every call succeeds. -/
theorem write_ok {Record : Type} (p : Config Record) (r : Record) (s : State) (name : NString)
    (hm : (prepareWrite p s).m_file = some name) (hs : (prepareWrite p s).script = []) :
    (write p r s).files = appendTo (prepareWrite p s).files name (p.convert r)
      ∧ (write p r s).m_fileSize = (prepareWrite p s).m_fileSize + ((p.convert r).length : Int)
      ∧ (write p r s).m_file = some name
      ∧ (write p r s).script = []
      ∧ (write p r s).m_firstWrite = (prepareWrite p s).m_firstWrite := by
  unfold write
  simp only
  rw [fileWrite_ok _ _ name hm hs]
  simp only
  by_cases hpos : ((p.convert r).length : Int) > 0
  · rw [if_pos hpos]
    exact ⟨rfl, rfl, hm, hs, rfl⟩
  · rw [if_neg hpos]
    have h0 : ((p.convert r).length : Int) = 0 := by omega
    exact ⟨rfl, by simp [h0], hm, hs, rfl⟩

/-! ## Path resolution is part of the environment: no call changes it -/

@[simp] theorem setSize_resolve (s : State) (z : Int) : (s.setSize z).resolve = s.resolve := rfl
@[simp] theorem addSize_resolve (s : State) (z : Int) : (s.addSize z).resolve = s.resolve := rfl
@[simp] theorem clearFirstWrite_resolve (s : State) : s.clearFirstWrite.resolve = s.resolve := rfl
@[simp] theorem log_resolve (s : State) (e : Event) : (s.log e).resolve = s.resolve := rfl
@[simp] theorem fileClose_resolve (s : State) : (fileClose s).resolve = s.resolve := rfl
@[simp] theorem fileUnlink_resolve (name : NString) (s : State) :
    (fileUnlink name s).resolve = s.resolve := rfl

@[simp] theorem fileRename_resolve (a b : NString) (s : State) :
    (fileRename a b s).resolve = s.resolve := by
  unfold fileRename; split <;> [rfl; (split <;> rfl)]

@[simp] theorem fileOpen_resolve (name : NString) (s : State) :
    (fileOpen name s).2.resolve = s.resolve := by
  unfold fileOpen; split <;> rfl

@[simp] theorem fileWrite_resolve (d : Bytes) (s : State) :
    (fileWrite d s).2.resolve = s.resolve := by
  unfold fileWrite; split <;> [rfl; (split <;> rfl)]

@[simp] theorem openLogFile_resolve {Record : Type} (p : Config Record) (s : State) :
    (openLogFile p s).resolve = s.resolve := by
  unfold openLogFile
  simp only
  split_ifs <;> simp

@[simp] theorem renameLoop_resolve {Record : Type} (p : Config Record) (k : Nat) :
    ∀ s : State, (renameLoop p k s).resolve = s.resolve := by
  induction k with
  | zero => intro s; rfl
  | succ k ih => intro s; simp [renameLoop, ih]

@[simp] theorem rollLogFiles_resolve {Record : Type} (p : Config Record) (s : State) :
    (rollLogFiles p s).resolve = s.resolve := by
  rw [rollLogFiles_eq]
  simp [beforeReopen]

@[simp] theorem unlinkPath_resolve (x : NString) (s : State) :
    (unlinkPath x s).resolve = s.resolve := by
  unfold unlinkPath; split <;> rfl

@[simp] theorem unlinkPath_script (x : NString) (s : State) :
    (unlinkPath x s).script = s.script := by
  unfold unlinkPath; split <;> rfl

@[simp] theorem unlinkPath_m_file (x : NString) (s : State) :
    (unlinkPath x s).m_file = s.m_file := by
  unfold unlinkPath; split <;> rfl

@[simp] theorem renamePath_resolve (a x : NString) (s : State) :
    (renamePath a x s).resolve = s.resolve := by
  unfold renamePath; split <;> simp

@[simp] theorem renamePath_script (a x : NString) (s : State) :
    (renamePath a x s).script = s.script := by
  unfold renamePath; split <;> simp

@[simp] theorem renamePath_m_file (a x : NString) (s : State) :
    (renamePath a x s).m_file = s.m_file := by
  unfold renamePath; split <;> simp

@[simp] theorem backupLogfile_resolve {Record : Type} (p : Config Record) (x : NString)
    (s : State) : (backupLogfile p x s).resolve = s.resolve := by
  unfold backupLogfile
  simp

@[simp] theorem prepareWrite_resolve {Record : Type} (p : Config Record) (s : State) :
    (prepareWrite p s).resolve = s.resolve := by
  unfold prepareWrite
  split_ifs <;> simp

@[simp] theorem write_resolve {Record : Type} (p : Config Record) (r : Record) (s : State) :
    (write p r s).resolve = s.resolve := by
  unfold write
  simp only
  split_ifs <;> simp

@[simp] theorem writes_resolve {Record : Type} (p : Config Record) (rs : List Record) :
    ∀ s : State, (writes p rs s).resolve = s.resolve := by
  induction rs with
  | nil => intro s; rfl
  | cons r rs ih => intro s; simp [writes, ih]

/-! ## `backupLogfile` and the invariants when every call succeeds -/

/-- State in which `backupLogfile` reaches `openLogFile`, when the new name denotes the
file of key `k`: the base name is vacant and file `k` holds what the base file held. -/
theorem backup_before_reopen {Record : Type} (p : Config Record) (x k : NString) (s : State)
    (hres : s.resolve x = some k) :
    (renamePath (buildFileName p 0) x (unlinkPath x (fileClose s))).files (buildFileName p 0)
        = none
      ∧ (k ≠ buildFileName p 0 →
          (renamePath (buildFileName p 0) x (unlinkPath x (fileClose s))).files k
            = s.files (buildFileName p 0))
      ∧ (∀ n : NString, n ≠ buildFileName p 0 → n ≠ k →
          (renamePath (buildFileName p 0) x (unlinkPath x (fileClose s))).files n = s.files n) := by
  have hu : (unlinkPath x (fileClose s)).files = Function.update s.files k none := by
    unfold unlinkPath
    simp [hres]
  have hr : renamePath (buildFileName p 0) x (unlinkPath x (fileClose s))
      = fileRename (buildFileName p 0) k (unlinkPath x (fileClose s)) := by
    unfold renamePath
    simp [hres]
  rw [hr]
  by_cases hx : k = buildFileName p 0
  · subst hx
    refine ⟨?_, fun h => absurd rfl h, ?_⟩
    · rw [fileRename_self_files, hu]; simp
    · intro n hn _
      rw [fileRename_self_files, hu]
      simp [Function.update_noteq hn]
  · have hne : buildFileName p 0 ≠ k := fun e => hx e.symm
    refine ⟨?_, ?_, ?_⟩
    · rw [fileRename_files _ _ _ hne, if_pos rfl]
    · intro _
      rw [fileRename_files _ _ _ hne, if_neg hx, if_pos rfl, hu]
      simp only [Function.update_noteq hne, Function.update_same]
      cases s.files (buildFileName p 0) <;> rfl
    · intro n hn hnx
      rw [fileRename_files _ _ _ hne, if_neg hn, if_neg hnx, hu]
      simp [Function.update_noteq hnx]

theorem backupLogfile_eq {Record : Type} (p : Config Record) (x : NString) (s : State) :
    backupLogfile p x s
      = (openLogFile p
          (renamePath (buildFileName p 0) x (unlinkPath x (fileClose s)))).clearFirstWrite := rfl

/-- After `backupLogfile` with every call of the reopening succeeding, whatever the new
name: the handle is open on the base file and `m_fileSize` is that file's length. -/
theorem backupLogfile_ok {Record : Type} (p : Config Record) (x : NString) (s : State)
    (hs : s.script = []) :
    (backupLogfile p x s).m_file = some (buildFileName p 0)
      ∧ (backupLogfile p x s).script = []
      ∧ (backupLogfile p x s).m_firstWrite = false
      ∧ ∃ c : Bytes, (backupLogfile p x s).files (buildFileName p 0) = some c
          ∧ (backupLogfile p x s).m_fileSize = (c.length : Int) := by
  have hs3 : (renamePath (buildFileName p 0) x (unlinkPath x (fileClose s))).script = [] := by
    simp [hs]
  obtain ⟨h1, h2⟩ := openLogFile_base_ok p _ hs3
  refine ⟨?_, ?_, rfl, ?_⟩
  · rw [backupLogfile_eq, clearFirstWrite_m_file, openLogFile_m_file_ok p _ hs3]
  · rw [backupLogfile_eq, clearFirstWrite_script, openLogFile_script p _ hs3]
  · exact ⟨_, by rw [backupLogfile_eq, clearFirstWrite_files]; exact h1,
      by rw [backupLogfile_eq, clearFirstWrite_m_fileSize]; exact h2⟩

/-- After `backupLogfile` onto a name that denotes the file of key `k`, every call
succeeding: the base file is new and holds the header, file `k` holds what the base
file held (when it is another file), and no other file changes. -/
theorem backupLogfile_resolved {Record : Type} (p : Config Record) (x k : NString) (s : State)
    (hs : s.script = []) (hres : s.resolve x = some k) :
    (backupLogfile p x s).m_fileSize = (p.header.length : Int)
      ∧ (backupLogfile p x s).files (buildFileName p 0) = some p.header
      ∧ (k ≠ buildFileName p 0 → (backupLogfile p x s).files k = s.files (buildFileName p 0))
      ∧ (∀ n : NString, n ≠ buildFileName p 0 → n ≠ k →
          (backupLogfile p x s).files n = s.files n) := by
  obtain ⟨hb, hx, hn⟩ := backup_before_reopen p x k s hres
  have hs3 : (renamePath (buildFileName p 0) x (unlinkPath x (fileClose s))).script = [] := by
    simp [hs]
  obtain ⟨h1, h2⟩ := openLogFile_base_ok p _ hs3
  rw [hb] at h1 h2
  refine ⟨?_, ?_, ?_, ?_⟩
  · rw [backupLogfile_eq, clearFirstWrite_m_fileSize, h2]; simp
  · rw [backupLogfile_eq, clearFirstWrite_files, h1]; simp
  · intro hxb
    rw [backupLogfile_eq, clearFirstWrite_files, openLogFile_files_of_ne p _ k hxb, hx hxb]
  · intro n hnb hnx
    rw [backupLogfile_eq, clearFirstWrite_files, openLogFile_files_of_ne p _ n hnb, hn n hnb hnx]

theorem Synced.handleOnBase {Record : Type} {p : Config Record} {s : State} (h : Synced p s) :
    HandleOnBase p s := by
  intro hf
  obtain ⟨hm, c, hc, _⟩ := h hf
  exact ⟨hm, by rw [hc]; rfl⟩

theorem synced_initState {Record : Type} (p : Config Record) (files : NString → Option Bytes)
    (script : List Outcome) : Synced p (initState files script) := by
  intro hf
  exact absurd hf (by simp [initState])

theorem synced_rollLogFiles {Record : Type} (p : Config Record) (s : State)
    (hs : s.script = []) : Synced p (rollLogFiles p s) := by
  obtain ⟨hm, _, hsz, _, hb⟩ := rollLogFiles_ok p s hs
  intro _
  exact ⟨hm, p.header, hb, hsz⟩

theorem synced_backupLogfile {Record : Type} (p : Config Record) (x : NString) (s : State)
    (hs : s.script = []) : Synced p (backupLogfile p x s) := by
  obtain ⟨hm, _, _, c, hb, hsz⟩ := backupLogfile_ok p x s hs
  intro _
  exact ⟨hm, c, hb, hsz⟩

/-- State in which `write` issues the record, when every call succeeds. -/
theorem prepareWrite_ok {Record : Type} (p : Config Record) (s : State) (hs : s.script = [])
    (hinv : HandleOnBase p s) :
    (prepareWrite p s).m_file = some (buildFileName p 0)
      ∧ (prepareWrite p s).script = []
      ∧ (prepareWrite p s).m_firstWrite = false
      ∧ ∃ c : Bytes, (prepareWrite p s).files (buildFileName p 0) = some c := by
  by_cases hf : s.m_firstWrite = true
  · rw [prepareWrite_first p s hf]
    refine ⟨openLogFile_m_file_ok p s hs, openLogFile_script p s hs, rfl, _,
      (openLogFile_base_ok p s hs).1⟩
  · have hf2 : s.m_firstWrite = false := by simpa using hf
    by_cases hc : p.m_maxFiles > 0 ∧ s.m_fileSize > p.m_maxFileSize ∧ -1 ≠ s.m_fileSize
    · rw [prepareWrite_roll p s hf2 hc]
      obtain ⟨hm, hscr, _, hfw, hb⟩ := rollLogFiles_ok p s hs
      exact ⟨hm, hscr, hfw, _, hb⟩
    · rw [prepareWrite_keep p s hf2 hc]
      obtain ⟨hm, hex⟩ := hinv hf2
      obtain ⟨c, hc⟩ := Option.isSome_iff_exists.mp hex
      exact ⟨hm, hs, hf2, c, hc⟩

theorem synced_prepareWrite {Record : Type} (p : Config Record) (s : State)
    (hs : s.script = []) (hinv : Synced p s) : Synced p (prepareWrite p s) := by
  by_cases hf : s.m_firstWrite = true
  · rw [prepareWrite_first p s hf]
    intro _
    obtain ⟨h1, h2⟩ := openLogFile_base_ok p s hs
    exact ⟨openLogFile_m_file_ok p s hs, _, h1, h2⟩
  · have hf2 : s.m_firstWrite = false := by simpa using hf
    by_cases hc : p.m_maxFiles > 0 ∧ s.m_fileSize > p.m_maxFileSize ∧ -1 ≠ s.m_fileSize
    · rw [prepareWrite_roll p s hf2 hc]
      exact synced_rollLogFiles p s hs
    · rw [prepareWrite_keep p s hf2 hc]
      exact hinv

theorem synced_write {Record : Type} (p : Config Record) (r : Record) (s : State)
    (hs : s.script = []) (hinv : Synced p s) :
    Synced p (write p r s) ∧ (write p r s).script = [] ∧ (write p r s).m_firstWrite = false := by
  obtain ⟨hm, hscr, hfw, _⟩ := prepareWrite_ok p s hs hinv.handleOnBase
  obtain ⟨_, c, hc, hsz⟩ := synced_prepareWrite p s hs hinv hfw
  obtain ⟨w1, w2, w3, w4, w5⟩ := write_ok p r s _ hm hscr
  refine ⟨?_, w4, by rw [w5, hfw]⟩
  intro _
  refine ⟨w3, c ++ p.convert r, ?_, ?_⟩
  · rw [w1, appendTo_same, hc]; rfl
  · rw [w2, hsz]; simp

/-! ## Writes under arbitrary I/O outcomes -/

theorem fileOpen_content (name : NString) (s : State) (n : NString) :
    ((fileOpen name s).2.files n).getD [] = (s.files n).getD [] := by
  by_cases hn : n = name
  · subst hn
    unfold fileOpen
    split <;> simp
  · rw [fileOpen_files_of_ne _ _ _ hn]

theorem fileWrite_content (d : Bytes) (s : State) (n : NString) :
    ∃ t : Bytes, ((fileWrite d s).2.files n).getD [] = (s.files n).getD [] ++ t := by
  by_cases hm : s.m_file = some n
  · obtain ⟨k, hk, _⟩ := fileWrite_spec d s n hm
    rw [hk, appendTo_same]
    cases s.files n with
    | none => exact ⟨[], by simp⟩
    | some c => exact ⟨d.take k, by simp⟩
  · exact ⟨[], by rw [fileWrite_files_of_ne d s n hm]; simp⟩

theorem openLogFile_content {Record : Type} (p : Config Record) (s : State) (n : NString) :
    ∃ t : Bytes, ((openLogFile p s).files n).getD [] = (s.files n).getD [] ++ t := by
  unfold openLogFile
  simp only
  split_ifs
  · obtain ⟨t, ht⟩ := fileWrite_content p.header
      ((fileOpen (buildFileName p 0) s).2.setSize (fileOpen (buildFileName p 0) s).1) n
    exact ⟨t, by rw [addSize_files, ht, setSize_files, fileOpen_content]⟩
  · obtain ⟨t, ht⟩ := fileWrite_content p.header
      ((fileOpen (buildFileName p 0) s).2.setSize (fileOpen (buildFileName p 0) s).1) n
    exact ⟨t, by rw [ht, setSize_files, fileOpen_content]⟩
  · exact ⟨[], by rw [setSize_files, fileOpen_content]; simp⟩

theorem appendTo_isSome (files : NString → Option Bytes) (name : NString) (d : Bytes)
    (n : NString) : (appendTo files name d n).isSome = (files n).isSome := by
  by_cases hn : n = name
  · subst hn
    rw [appendTo_same]
    cases files n <;> rfl
  · rw [appendTo_of_ne _ _ _ _ hn]

/-- A write neither creates nor removes a name. -/
theorem fileWrite_isSome (d : Bytes) (s : State) (n : NString) :
    ((fileWrite d s).2.files n).isSome = (s.files n).isSome := by
  cases hm : s.m_file with
  | none => rw [fileWrite_files_of_ne d s n (by rw [hm]; simp)]
  | some name =>
    obtain ⟨k, hk, _⟩ := fileWrite_spec d s name hm
    rw [hk, appendTo_isSome]

theorem fileOpen_isSome_mono (name : NString) (s : State) (n : NString)
    (h : (s.files n).isSome = true) : ((fileOpen name s).2.files n).isSome = true := by
  by_cases hn : n = name
  · subst hn
    unfold fileOpen
    split
    · exact h
    · simp
  · rw [fileOpen_files_of_ne _ _ _ hn]; exact h

theorem openLogFile_isSome_mono {Record : Type} (p : Config Record) (s : State) (n : NString)
    (h : (s.files n).isSome = true) : ((openLogFile p s).files n).isSome = true := by
  unfold openLogFile
  simp only
  split_ifs
  · rw [addSize_files, fileWrite_isSome, setSize_files]; exact fileOpen_isSome_mono _ _ _ h
  · rw [fileWrite_isSome, setSize_files]; exact fileOpen_isSome_mono _ _ _ h
  · rw [setSize_files]; exact fileOpen_isSome_mono _ _ _ h

/-- The handle is closed or open on the base file; every `write` keeps it so. -/
theorem write_handle {Record : Type} (p : Config Record) (r : Record) (s : State)
    (h : s.m_file = none ∨ s.m_file = some (buildFileName p 0)) :
    (write p r s).m_file = none ∨ (write p r s).m_file = some (buildFileName p 0) := by
  have hp : (prepareWrite p s).m_file = none
      ∨ (prepareWrite p s).m_file = some (buildFileName p 0) := by
    unfold prepareWrite
    split_ifs
    · exact openLogFile_m_file p s
    · exact openLogFile_m_file p _
    · exact h
  unfold write
  simp only
  split_ifs <;> simpa using hp

theorem writes_handle {Record : Type} (p : Config Record) (rs : List Record) : ∀ s : State,
    (s.m_file = none ∨ s.m_file = some (buildFileName p 0)) →
    ((writes p rs s).m_file = none ∨ (writes p rs s).m_file = some (buildFileName p 0)) := by
  induction rs with
  | nil => intro s h; exact h
  | cons r rs ih => intro s h; exact ih _ (write_handle p r s h)

/-- One `write` with rotation disabled: only `open` and `write` calls are made, files
other than the base file are untouched and the base file is extended. -/
theorem write_no_rotation {Record : Type} (p : Config Record) (r : Record) (s : State)
    (hp : p.m_maxFiles ≤ 0)
    (h : s.m_file = none ∨ s.m_file = some (buildFileName p 0)) :
    (∃ evs : List Event, (write p r s).trace = s.trace ++ evs
        ∧ ∀ e ∈ evs, (∃ n b z, e = Event.opened n b z) ∨ (∃ d k, e = Event.wrote d k))
      ∧ (∃ t : Bytes, ((write p r s).files (buildFileName p 0)).getD []
          = (s.files (buildFileName p 0)).getD [] ++ t)
      ∧ (∀ n : NString, n ≠ buildFileName p 0 → (write p r s).files n = s.files n) := by
  have hno : ¬ (p.m_maxFiles > 0 ∧ s.m_fileSize > p.m_maxFileSize ∧ -1 ≠ s.m_fileSize) := by
    intro hc; omega
  have hwf : (write p r s).files = (fileWrite (p.convert r) (prepareWrite p s)).2.files := by
    unfold write
    simp only
    split_ifs <;> simp
  by_cases hf : s.m_firstWrite = true
  · have hprep := prepareWrite_first p s hf
    refine ⟨?_, ?_, ?_⟩
    · have ht : (write p r s).trace = s.trace ++
          (Event.opened (buildFileName p 0) s.m_file.isSome (fileOpen (buildFileName p 0) s).1
            :: (if 0 = (fileOpen (buildFileName p 0) s).1 then
                  [Event.wrote p.header
                    (fileWrite p.header
                      ((fileOpen (buildFileName p 0) s).2.setSize
                        (fileOpen (buildFileName p 0) s).1)).1]
                else [])
            ++ [Event.wrote (p.convert r) (fileWrite (p.convert r) (prepareWrite p s)).1]) := by
        rw [write_trace, hprep, clearFirstWrite_trace, openLogFile_trace, List.append_assoc]
      refine ⟨_, ht, ?_⟩
      intro e he
      simp only [List.cons_append, List.mem_cons, List.mem_append] at he
      rcases he with he | he | he
      · exact Or.inl ⟨_, _, _, he⟩
      · split_ifs at he
        · simp only [List.mem_singleton] at he
          exact Or.inr ⟨_, _, he⟩
        · simp at he
      · simp only [List.mem_singleton, List.not_mem_nil, or_false] at he
        exact Or.inr ⟨_, _, he⟩
    · obtain ⟨t1, ht1⟩ := openLogFile_content p s (buildFileName p 0)
      obtain ⟨t2, ht2⟩ := fileWrite_content (p.convert r) (prepareWrite p s) (buildFileName p 0)
      refine ⟨t1 ++ t2, ?_⟩
      rw [hwf, ht2, hprep, clearFirstWrite_files, ht1, List.append_assoc]
    · intro n hn
      have hm : (prepareWrite p s).m_file ≠ some n := by
        rw [hprep, clearFirstWrite_m_file]
        rcases openLogFile_m_file p s with h1 | h1 <;> rw [h1]
        · simp
        · intro e; exact hn (Option.some.inj e).symm
      rw [hwf, fileWrite_files_of_ne _ _ _ hm, hprep, clearFirstWrite_files,
        openLogFile_files_of_ne p s n hn]
  · have hf2 : s.m_firstWrite = false := by simpa using hf
    have hprep := prepareWrite_keep p s hf2 hno
    refine ⟨?_, ?_, ?_⟩
    · have ht : (write p r s).trace = s.trace
          ++ [Event.wrote (p.convert r) (fileWrite (p.convert r) (prepareWrite p s)).1] := by
        rw [write_trace, hprep]
      refine ⟨_, ht, ?_⟩
      intro e he
      simp only [List.mem_singleton] at he
      exact Or.inr ⟨_, _, he⟩
    · rw [hwf, hprep]
      exact fileWrite_content _ _ _
    · intro n hn
      have hm : s.m_file ≠ some n := by
        rcases h with h1 | h1 <;> rw [h1]
        · simp
        · intro e; exact hn (Option.some.inj e).symm
      rw [hwf, hprep, fileWrite_files_of_ne _ _ _ hm]

/-- With rotation disabled, the whole history of a run of writes on a fresh appender
consists of `open` and `write` calls. -/
theorem writes_trace_no_rotation {Record : Type} (p : Config Record) (hp : p.m_maxFiles ≤ 0)
    (rs : List Record) : ∀ s : State,
    (s.m_file = none ∨ s.m_file = some (buildFileName p 0)) →
    (∀ e ∈ s.trace, (∃ n b z, e = Event.opened n b z) ∨ (∃ d k, e = Event.wrote d k)) →
    ∀ e ∈ (writes p rs s).trace,
      (∃ n b z, e = Event.opened n b z) ∨ (∃ d k, e = Event.wrote d k) := by
  induction rs with
  | nil => intro s _ h; exact h
  | cons r rs ih =>
    intro s hm h
    apply ih _ (write_handle p r s hm)
    obtain ⟨⟨evs, ht, hev⟩, _⟩ := write_no_rotation p r s hp hm
    intro e he
    rw [ht] at he
    rcases List.mem_append.mp he with he | he
    · exact h e he
    · exact hev e he

/-! ## Existence of the chain files -/

theorem fileWrite_script_nil (d : Bytes) (s : State) (hs : s.script = []) :
    (fileWrite d s).2.script = [] := by
  unfold fileWrite
  split
  · exact hs
  · split <;> simp_all

theorem prepareWrite_script_nil {Record : Type} (p : Config Record) (s : State)
    (hs : s.script = []) : (prepareWrite p s).script = [] := by
  unfold prepareWrite
  split_ifs
  · exact openLogFile_script p s hs
  · exact (rollLogFiles_ok p s hs).2.1
  · exact hs

theorem write_script_nil {Record : Type} (p : Config Record) (r : Record) (s : State)
    (hs : s.script = []) : (write p r s).script = [] := by
  have h := fileWrite_script_nil (p.convert r) _ (prepareWrite_script_nil p s hs)
  unfold write
  simp only
  split_ifs <;> simpa using h

theorem encodeAll_cons {Record : Type} (p : Config Record) (r : Record) (rs : List Record) :
    encodeAll p (r :: rs) = p.convert r ++ encodeAll p rs := rfl

/-- A run of writes on an active appender during which the size never exceeds the limit
(or rotation is disabled) appends the encoded records to the base file, in order. -/
theorem writes_active {Record : Type} (p : Config Record) (rs : List Record) :
    ∀ (s : State) (c : Bytes), s.script = [] → s.m_firstWrite = false →
      s.m_file = some (buildFileName p 0) → s.files (buildFileName p 0) = some c →
      s.m_fileSize = (c.length : Int) →
      (p.m_maxFiles ≤ 0 ∨ (c.length : Int) + ((encodeAll p rs).length : Int) ≤ p.m_maxFileSize) →
      (writes p rs s).script = [] ∧ (writes p rs s).m_firstWrite = false
        ∧ (writes p rs s).m_file = some (buildFileName p 0)
        ∧ (writes p rs s).files (buildFileName p 0) = some (c ++ encodeAll p rs)
        ∧ (writes p rs s).m_fileSize = ((c ++ encodeAll p rs).length : Int)
        ∧ ∀ n : NString, n ≠ buildFileName p 0 → (writes p rs s).files n = s.files n := by
  induction rs with
  | nil =>
    intro s c hs hf hm hc hsz _
    refine ⟨hs, hf, hm, ?_, ?_, fun _ _ => rfl⟩
    · simpa [writes, encodeAll] using hc
    · simpa [writes, encodeAll] using hsz
  | cons r rs ih =>
    intro s c hs hf hm hc hsz hlim
    have hno : ¬ (p.m_maxFiles > 0 ∧ s.m_fileSize > p.m_maxFileSize ∧ -1 ≠ s.m_fileSize) := by
      rintro ⟨h1, h2, _⟩
      rcases hlim with h | h
      · omega
      · rw [hsz] at h2
        have : (0 : Int) ≤ ((encodeAll p (r :: rs)).length : Int) := Int.natCast_nonneg _
        omega
    have hprep := prepareWrite_keep p s hf hno
    obtain ⟨w1, w2, w3, w4, w5⟩ := write_ok p r s (buildFileName p 0)
      (by rw [hprep]; exact hm) (by rw [hprep]; exact hs)
    rw [hprep] at w1 w2 w5
    have hc' : (write p r s).files (buildFileName p 0) = some (c ++ p.convert r) := by
      rw [w1, appendTo_same, hc]; rfl
    have hsz' : (write p r s).m_fileSize = ((c ++ p.convert r).length : Int) := by
      rw [w2, hsz]; simp
    have hlim' : p.m_maxFiles ≤ 0 ∨ ((c ++ p.convert r).length : Int)
        + ((encodeAll p rs).length : Int) ≤ p.m_maxFileSize := by
      rcases hlim with h | h
      · exact Or.inl h
      · right
        rw [encodeAll_cons] at h
        simp only [List.length_append, Nat.cast_add] at h ⊢
        omega
    obtain ⟨i1, i2, i3, i4, i5, i6⟩ := ih (write p r s) (c ++ p.convert r) w4
      (by rw [w5]; exact hf) w3 hc' hsz' hlim'
    simp only [writes]
    refine ⟨i1, i2, i3, ?_, ?_, ?_⟩
    · rw [i4, encodeAll_cons, List.append_assoc]
    · rw [i5, encodeAll_cons, List.append_assoc]
    · intro n hn
      rw [i6 n hn, w1, appendTo_of_ne _ _ _ _ hn]

/-- First window of an appender that has not written yet and whose base file is absent
or empty: the base file receives the header and then the encoded records. -/
theorem writes_fresh {Record : Type} (p : Config Record) (s : State)
    (r : Record) (rs : List Record)
    (hf : s.m_firstWrite = true) (hs0 : s.script = [])
    (hfresh : (s.files (buildFileName p 0)).getD [] = [])
    (hlim : p.m_maxFiles ≤ 0
      ∨ (p.header.length : Int) + ((encodeAll p (r :: rs)).length : Int) ≤ p.m_maxFileSize) :
    (writes p (r :: rs) s).script = []
      ∧ (writes p (r :: rs) s).files (buildFileName p 0)
          = some (p.header ++ encodeAll p (r :: rs))
      ∧ ∀ n : NString, n ≠ buildFileName p 0 → (writes p (r :: rs) s).files n = s.files n := by
  have hprep := prepareWrite_first p s hf
  obtain ⟨o1, o2⟩ := openLogFile_base_ok p s hs0
  rw [if_pos hfresh] at o1 o2
  obtain ⟨w1, w2, w3, w4, w5⟩ := write_ok p r s (buildFileName p 0)
    (by rw [hprep]; exact openLogFile_m_file_ok p _ hs0)
    (by rw [hprep]; exact openLogFile_script p _ hs0)
  rw [hprep] at w1 w2 w5
  simp only [clearFirstWrite_files, clearFirstWrite_m_fileSize,
    clearFirstWrite_m_firstWrite] at w1 w2 w5
  have hc' : (write p r s).files (buildFileName p 0) = some (p.header ++ p.convert r) := by
    rw [w1, appendTo_same, o1]; rfl
  have hsz' : (write p r s).m_fileSize = ((p.header ++ p.convert r).length : Int) := by
    rw [w2, o2]; simp
  have hlim' : p.m_maxFiles ≤ 0 ∨ ((p.header ++ p.convert r).length : Int)
      + ((encodeAll p rs).length : Int) ≤ p.m_maxFileSize := by
    rcases hlim with h | h
    · exact Or.inl h
    · right
      rw [encodeAll_cons] at h
      simp only [List.length_append, Nat.cast_add] at h ⊢
      omega
  obtain ⟨i1, _, _, i4, _, i6⟩ := writes_active p rs (write p r s)
    (p.header ++ p.convert r) w4 w5 w3 hc' hsz' hlim'
  simp only [writes]
  refine ⟨i1, ?_, ?_⟩
  · rw [i4, encodeAll_cons, List.append_assoc]
  · intro n hn
    rw [i6 n hn, w1, appendTo_of_ne _ _ _ _ hn, openLogFile_files_of_ne p _ n hn]

/-- Every state a fresh appender reaches through public calls that all succeed satisfies
the size invariant, hence the handle invariant. -/
theorem synced_run {Record : Type} (p : Config Record) (ops : List (Op Record)) :
    ∀ s : State, s.script = [] → Synced p s →
      Synced p (run p ops s) ∧ (run p ops s).script = [] := by
  induction ops with
  | nil => intro s hs h; exact ⟨h, hs⟩
  | cons o os ih =>
    intro s hs h
    cases o with
    | write r =>
      obtain ⟨h1, h2, _⟩ := synced_write p r s hs h
      exact ih _ h2 h1
    | rollLogFiles =>
      exact ih _ (rollLogFiles_ok p s hs).2.1 (synced_rollLogFiles p s hs)
    | backupLogfile x =>
      exact ih _ (backupLogfile_ok p x s hs).2.1 (synced_backupLogfile p x s hs)

/-! ## Claims -/

/-- C9 (refuted as stated): on an LP64 platform the `size_t` value `2^63` converts to a
negative `off_t`, so the effective `m_maxFileSize` is `1000`, not
`max(maxFileSize, 1000)`. -/
theorem C9_counterexample :
    (FileRenameAppender "Test".toList "log".toList (2 ^ 63) 1 [] (fun _ : Unit => [])).m_maxFileSize
        = 1000
      ∧ (FileRenameAppender "Test".toList "log".toList (2 ^ 63) 1 []
            (fun _ : Unit => [])).m_maxFileSize
        ≠ max (((2 ^ 63 : Nat) : Int)) 1000 := by
  constructor <;> simp [FileRenameAppender, toOffT]

/-- C9 (amended): for every `maxFileSize` that the signed `off_t` can represent
(below `2^63`), the effective `m_maxFileSize` equals `max(maxFileSize, 1000)`: a value
below 1000 becomes exactly 1000 and a value of at least 1000 is kept. -/
theorem C9_maxFileSize_clamp {Record : Type} (fileNameNoExt fileExt : NString)
    (maxFileSize : Nat) (maxFiles : Int) (header : Bytes) (convert : Record → Bytes)
    (h : maxFileSize < 2 ^ 63) :
    (FileRenameAppender fileNameNoExt fileExt maxFileSize maxFiles header convert).m_maxFileSize
        = max (maxFileSize : Int) 1000
      ∧ (maxFileSize < 1000 →
          (FileRenameAppender fileNameNoExt fileExt maxFileSize maxFiles header
            convert).m_maxFileSize = 1000)
      ∧ (1000 ≤ maxFileSize →
          (FileRenameAppender fileNameNoExt fileExt maxFileSize maxFiles header
            convert).m_maxFileSize = maxFileSize) := by
  have e1 : toOffT maxFileSize = (maxFileSize : Int) := by
    unfold toOffT
    have : maxFileSize % 2 ^ 64 = maxFileSize := Nat.mod_eq_of_lt (by omega)
    simp only [this, h, if_true]
  have e2 : toOffT 1000 = 1000 := by simp [toOffT]
  refine ⟨?_, ?_, ?_⟩
  · simp only [FileRenameAppender, e1, e2]
  · intro h1
    simp only [FileRenameAppender, e1, e2]
    exact max_eq_right (by omega)
  · intro h1
    simp only [FileRenameAppender, e1, e2]
    exact max_eq_left (by omega)

/-- Witness for C9 (amended): the sample's `2000000` is kept, and `0` becomes `1000`. -/
theorem C9_maxFileSize_clamp_witness :
    (FileRenameAppender "Test".toList "log".toList 2000000 1 [] (fun _ : Unit => [])).m_maxFileSize
        = max ((2000000 : Nat) : Int) 1000 :=
  (C9_maxFileSize_clamp "Test".toList "log".toList 2000000 1 [] (fun _ : Unit => [])
    (by norm_num)).1

/-- C10: `openLogFile` opens the base name. When `open` reports size 0 the header is
written exactly once and `m_fileSize` becomes the number of header bytes persisted (the
whole header when every call succeeds); otherwise no header is written, `m_fileSize`
is the size `open` reported (the byte length of the existing file unless `open`
failed) and no file content changes. -/
theorem C10_openLogFile_header_once {Record : Type} (p : Config Record) (s : State) :
    ((fileOpen (buildFileName p 0) s).1 = 0 →
        ∃ (k : Nat) (n : Int),
          eventsSince s (openLogFile p s)
              = [Event.opened (buildFileName p 0) s.m_file.isSome 0, Event.wrote p.header n]
            ∧ (openLogFile p s).files (buildFileName p 0) = some (p.header.take k)
            ∧ (openLogFile p s).m_fileSize = ((p.header.take k).length : Int)
            ∧ (s.script = [] → p.header.take k = p.header))
      ∧ ((fileOpen (buildFileName p 0) s).1 ≠ 0 →
          eventsSince s (openLogFile p s)
              = [Event.opened (buildFileName p 0) s.m_file.isSome
                  (fileOpen (buildFileName p 0) s).1]
            ∧ (openLogFile p s).m_fileSize = (fileOpen (buildFileName p 0) s).1
            ∧ ∀ n : NString, (openLogFile p s).files n = s.files n)
      ∧ ((fileOpen (buildFileName p 0) s).1 ≠ -1 →
          (fileOpen (buildFileName p 0) s).1
            = (((s.files (buildFileName p 0)).getD []).length : Int)) := by
  refine ⟨?_, ?_, ?_⟩
  · intro h0
    obtain ⟨k, hk1, hk2⟩ := openLogFile_of_zero p s h0
    refine ⟨k, (fileWrite p.header ((fileOpen (buildFileName p 0) s).2.setSize 0)).1,
      ?_, hk1, hk2, ?_⟩
    · apply eventsSince_of_trace
      rw [openLogFile_trace, h0, if_pos rfl]
    · intro hs
      have hc : (s.files (buildFileName p 0)).getD [] = [] := by
        rw [fileOpen_ok _ _ hs] at h0
        exact List.length_eq_zero.mp (by simpa using h0)
      rw [openLogFile_ok p s hs, if_pos hc] at hk1
      simp only [Function.update_same, Option.some.injEq] at hk1
      exact hk1.symm
  · intro h0
    refine ⟨?_, ?_, ?_⟩
    · apply eventsSince_of_trace
      rw [openLogFile_trace, if_neg (fun e => h0 e.symm)]
    · unfold openLogFile
      simp only [setSize_m_fileSize]
      rw [if_neg (fun e => h0 e.symm)]
      rfl
    · intro n
      unfold openLogFile
      simp only [setSize_m_fileSize]
      rw [if_neg (fun e => h0 e.symm)]
      exact fileOpen_files_of_ne_zero _ _ h0 n
  · intro h1
    rcases fileOpen_reported (buildFileName p 0) s with h | h
    · exact absurd h h1
    · exact h

/-- C2: `write` calls `rollLogFiles` before issuing the record exactly when it is not
the first write, `m_maxFiles > 0`, the size before the write is strictly greater than
`m_maxFileSize` and that size is not the sentinel `-1`; a size equal to
`m_maxFileSize` does not rotate. -/
theorem C2_rotation_trigger {Record : Type} (p : Config Record) (r : Record) (s : State) :
    (Event.roll ∈ eventsSince s (write p r s)
        ↔ (s.m_firstWrite = false ∧ p.m_maxFiles > 0 ∧ s.m_fileSize > p.m_maxFileSize
            ∧ s.m_fileSize ≠ -1))
      ∧ (s.m_firstWrite = false ∧ p.m_maxFiles > 0 ∧ s.m_fileSize > p.m_maxFileSize
            ∧ s.m_fileSize ≠ -1 →
          ∃ n : Int, eventsSince s (write p r s)
            = eventsSince s (rollLogFiles p s) ++ [Event.wrote (p.convert r) n])
      ∧ (s.m_fileSize = p.m_maxFileSize → Event.roll ∉ eventsSince s (write p r s)) := by
  have key : Event.roll ∈ eventsSince s (write p r s)
        ↔ (s.m_firstWrite = false ∧ p.m_maxFiles > 0 ∧ s.m_fileSize > p.m_maxFileSize
            ∧ s.m_fileSize ≠ -1) := by
    by_cases hf : s.m_firstWrite = true
    · have ht : (write p r s).trace = s.trace ++
          (Event.opened (buildFileName p 0) s.m_file.isSome (fileOpen (buildFileName p 0) s).1
            :: (if 0 = (fileOpen (buildFileName p 0) s).1 then
                  [Event.wrote p.header
                    (fileWrite p.header
                      ((fileOpen (buildFileName p 0) s).2.setSize
                        (fileOpen (buildFileName p 0) s).1)).1]
                else [])
            ++ [Event.wrote (p.convert r) (fileWrite (p.convert r) (prepareWrite p s)).1]) := by
        rw [write_trace, prepareWrite_first p s hf, clearFirstWrite_trace, openLogFile_trace,
          List.append_assoc]
      rw [eventsSince_of_trace ht]
      constructor
      · intro hmem
        exfalso
        split_ifs at hmem <;> simp at hmem
      · intro h
        rw [hf] at h
        exact absurd h.1 (by simp)
    · have hf2 : s.m_firstWrite = false := by simpa using hf
      by_cases hc : p.m_maxFiles > 0 ∧ s.m_fileSize > p.m_maxFileSize ∧ -1 ≠ s.m_fileSize
      · obtain ⟨evs, hevs⟩ := rollLogFiles_trace p s
        have ht : (write p r s).trace = s.trace ++ (Event.roll :: evs
            ++ [Event.wrote (p.convert r) (fileWrite (p.convert r) (prepareWrite p s)).1]) := by
          rw [write_trace, prepareWrite_roll p s hf2 hc, hevs, List.append_assoc]
        rw [eventsSince_of_trace ht]
        constructor
        · intro _
          exact ⟨hf2, hc.1, hc.2.1, fun e => hc.2.2 e.symm⟩
        · intro _
          simp
      · have ht : (write p r s).trace = s.trace
            ++ [Event.wrote (p.convert r) (fileWrite (p.convert r) (prepareWrite p s)).1] := by
          rw [write_trace, prepareWrite_keep p s hf2 hc]
        rw [eventsSince_of_trace ht]
        constructor
        · intro hmem
          simp at hmem
        · intro h
          exact absurd ⟨h.2.1, h.2.2.1, fun e => h.2.2.2 e.symm⟩ hc
  refine ⟨key, ?_, ?_⟩
  · intro h
    have hc : p.m_maxFiles > 0 ∧ s.m_fileSize > p.m_maxFileSize ∧ -1 ≠ s.m_fileSize :=
      ⟨h.2.1, h.2.2.1, fun e => h.2.2.2 e.symm⟩
    obtain ⟨evs, hevs⟩ := rollLogFiles_trace p s
    refine ⟨(fileWrite (p.convert r) (prepareWrite p s)).1, ?_⟩
    have ht : (write p r s).trace = s.trace ++ (Event.roll :: evs
        ++ [Event.wrote (p.convert r) (fileWrite (p.convert r) (prepareWrite p s)).1]) := by
      rw [write_trace, prepareWrite_roll p s h.1 hc, hevs, List.append_assoc]
    rw [eventsSince_of_trace ht, eventsSince_of_trace hevs]
  · intro he hmem
    have := (key.mp hmem).2.2.1
    omega

/-- Witness for C10: on an empty file system the header is written once. -/
theorem C10_openLogFile_header_once_witness :
    ∃ (k : Nat) (n : Int),
      eventsSince (initState (fun _ => none) [])
          (openLogFile (demoConfig 1) (initState (fun _ => none) []))
          = [Event.opened (buildFileName (demoConfig 1) 0)
              (initState (fun _ => none) []).m_file.isSome 0,
             Event.wrote (demoConfig 1).header n]
        ∧ (openLogFile (demoConfig 1) (initState (fun _ => none) [])).files
            (buildFileName (demoConfig 1) 0) = some ((demoConfig 1).header.take k)
        ∧ (openLogFile (demoConfig 1) (initState (fun _ => none) [])).m_fileSize
            = (((demoConfig 1).header.take k).length : Int)
        ∧ ((initState (fun _ => none) []).script = [] →
            (demoConfig 1).header.take k = (demoConfig 1).header) :=
  (C10_openLogFile_header_once (demoConfig 1) (initState (fun _ => none) [])).1 (by decide)

/-- Witness for C2: an active appender over the limit rotates on the next write. -/
theorem C2_rotation_trigger_witness :
    Event.roll ∈ eventsSince { demoActive [1, 2] (fun _ => none) with m_fileSize := 1001 }
      (write (demoConfig 3) [10] { demoActive [1, 2] (fun _ => none) with m_fileSize := 1001 }) :=
  (C2_rotation_trigger (demoConfig 3) [10]
    { demoActive [1, 2] (fun _ => none) with m_fileSize := 1001 }).1.mpr
    ⟨rfl, by decide, by decide, by decide⟩

theorem FileRenameAppender_maxFileSize_ge {Record : Type} (fileNameNoExt fileExt : NString)
    (maxFileSize : Nat) (maxFiles : Int) (header : Bytes) (convert : Record → Bytes) :
    1000 ≤ (FileRenameAppender fileNameNoExt fileExt maxFileSize maxFiles header
      convert).m_maxFileSize := by
  have e2 : toOffT 1000 = 1000 := by simp [toOffT]
  simp only [FileRenameAppender, e2]
  exact le_max_right _ _

/-- C1: with every open and write succeeding in full and the handle invariant of such
an appender, after `write(record)` the base file's content ends with exactly the
encoded bytes of the record; when it is not the first write and no rotation is
triggered, the new content of the base file is its previous content followed by those
bytes and every other file is unchanged. -/
theorem C1_write_appends {Record : Type} (p : Config Record) (r : Record) (s : State)
    (hs : s.script = []) (hinv : HandleOnBase p s) :
    (∃ pre : Bytes, (write p r s).files (buildFileName p 0) = some (pre ++ p.convert r))
      ∧ (s.m_firstWrite = false →
          ¬ (p.m_maxFiles > 0 ∧ s.m_fileSize > p.m_maxFileSize ∧ -1 ≠ s.m_fileSize) →
          (∃ c : Bytes, s.files (buildFileName p 0) = some c
              ∧ (write p r s).files (buildFileName p 0) = some (c ++ p.convert r))
            ∧ ∀ n : NString, n ≠ buildFileName p 0 → (write p r s).files n = s.files n) := by
  obtain ⟨hm, hscr, _, c, hc⟩ := prepareWrite_ok p s hs hinv
  obtain ⟨w1, _⟩ := write_ok p r s _ hm hscr
  refine ⟨⟨c, ?_⟩, ?_⟩
  · rw [w1, appendTo_same, hc]; rfl
  · intro hf hno
    rw [prepareWrite_keep p s hf hno] at hc w1
    refine ⟨⟨c, hc, ?_⟩, ?_⟩
    · rw [w1, appendTo_same, hc]; rfl
    · intro n hn
      rw [w1, appendTo_of_ne _ _ _ _ hn]

/-- Witness for C1: an active appender below the limit appends the record. -/
theorem C1_write_appends_witness :
    ∃ pre : Bytes, (write (demoConfig 1) [10] (demoActive [1, 2] (fun _ => none))).files
      (buildFileName (demoConfig 1) 0) = some (pre ++ (demoConfig 1).convert [10]) :=
  (C1_write_appends (demoConfig 1) [10] (demoActive [1, 2] (fun _ => none)) rfl
    (fun _ => ⟨rfl, rfl⟩)).1

/-- C5 (refuted as stated): when the new name is the base name itself, `backupLogfile`
unlinks the active file before the rename, so after the following write the file of
that name holds only the header and the record, not the content the base file had. -/
theorem C5_counterexample :
    (demoActive [1, 2] (fun _ => none)).files (buildFileName (demoConfig 1) 0) = some [1, 2]
      ∧ (write (demoConfig 1) [10]
          (backupLogfile (demoConfig 1) (buildFileName (demoConfig 1) 0)
            (demoActive [1, 2] (fun _ => none)))).files (buildFileName (demoConfig 1) 0)
        = some [239, 187, 191, 10]
      ∧ (write (demoConfig 1) [10]
          (backupLogfile (demoConfig 1) (buildFileName (demoConfig 1) 0)
            (demoActive [1, 2] (fun _ => none)))).files (buildFileName (demoConfig 1) 0)
        ≠ (demoActive [1, 2] (fun _ => none)).files (buildFileName (demoConfig 1) 0) := by
  refine ⟨by decide, by decide, by decide⟩

/-- C5 (amended): with every open and write succeeding, for every new name `X` that
denotes a file other than the base file (it resolves to a key `k` different from the
base name: not another spelling of the base file, not the empty name, not a path in a
missing directory), and provided the following write does not rotate that file away
(the header is no longer than `m_maxFileSize`, or rotation is disabled, or `k` is not
a rotated chain name), `backupLogfile(X)` followed immediately by `write(r)` leaves the
file `X` denotes holding exactly what the base file held before the call (an earlier
file there is replaced) and the base file holding only the header followed by the
encoded bytes of `r`. -/
theorem C5_backup_then_write {Record : Type} (p : Config Record) (x k : NString) (r : Record)
    (s : State) (hs : s.script = []) (hres : s.resolve x = some k)
    (hk : k ≠ buildFileName p 0)
    (hrot : (p.header.length : Int) ≤ p.m_maxFileSize ∨ p.m_maxFiles ≤ 0
      ∨ ∀ i : Int, 0 < i → i < p.m_maxFiles → k ≠ buildFileName p i) :
    (write p r (backupLogfile p x s)).files k = s.files (buildFileName p 0)
      ∧ (write p r (backupLogfile p x s)).files (buildFileName p 0)
          = some (p.header ++ p.convert r) := by
  obtain ⟨_, bscr, bfw, _⟩ := backupLogfile_ok p x s hs
  obtain ⟨bsz, bbase, bx, _⟩ := backupLogfile_resolved p x k s hs hres
  have hinv : HandleOnBase p (backupLogfile p x s) :=
    (synced_backupLogfile p x s hs).handleOnBase
  obtain ⟨hm, hscr, _, _⟩ := prepareWrite_ok p _ bscr hinv
  obtain ⟨w1, _⟩ := write_ok p r _ _ hm hscr
  rw [w1, appendTo_of_ne _ _ _ _ hk, appendTo_same]
  by_cases hc : p.m_maxFiles > 0 ∧ (backupLogfile p x s).m_fileSize > p.m_maxFileSize
      ∧ -1 ≠ (backupLogfile p x s).m_fileSize
  · rw [prepareWrite_roll p _ bfw hc]
    have hchain : ∀ i : Int, 0 < i → i < p.m_maxFiles → k ≠ buildFileName p i := by
      rcases hrot with h | h | h
      · rw [bsz] at hc; omega
      · omega
      · exact h
    constructor
    · rw [rollLogFiles_files_other p _ k (by omega), bx hk]
      intro i hi
      by_cases hi0 : i = 0
      · subst hi0; exact hk
      · exact hchain i (by omega) (by omega)
    · rw [(rollLogFiles_ok p _ bscr).2.2.2.2]; rfl
  · rw [prepareWrite_keep p _ bfw hc]
    exact ⟨bx hk, by rw [bbase]; rfl⟩

/-- Witness for C5 (amended): the sample's first backup, to `scenario_1.log`. -/
theorem C5_backup_then_write_witness :
    (write (demoConfig 1) [10]
        (backupLogfile (demoConfig 1) "scenario_1.log".toList
          (demoActive [1, 2] (fun _ => none)))).files "scenario_1.log".toList
      = (demoActive [1, 2] (fun _ => none)).files (buildFileName (demoConfig 1) 0)
    ∧ (write (demoConfig 1) [10]
        (backupLogfile (demoConfig 1) "scenario_1.log".toList
          (demoActive [1, 2] (fun _ => none)))).files (buildFileName (demoConfig 1) 0)
      = some ((demoConfig 1).header ++ (demoConfig 1).convert [10]) :=
  C5_backup_then_write (demoConfig 1) "scenario_1.log".toList "scenario_1.log".toList [10]
    (demoActive [1, 2] (fun _ => none)) rfl (by decide) (by decide) (Or.inl (by decide))

/-- C7: on an appender with `m_maxFiles = 0`, after any run of `write` calls from the
constructed state (any file system, any I/O outcomes, any sizes), a further `write`
performs only `open` and `write` calls (no `rollLogFiles`, no rename, no unlink, and
none earlier in the run either), leaves every other file as it was, and the base
file's content before the call is an initial segment of its content after it. -/
theorem C7_no_rotation_when_disabled {Record : Type} (p : Config Record)
    (files : NString → Option Bytes) (script : List Outcome) (rs : List Record) (r : Record)
    (hp : p.m_maxFiles = 0) :
    (∀ e ∈ (write p r (writes p rs (initState files script))).trace,
        (∃ n b z, e = Event.opened n b z) ∨ (∃ d k, e = Event.wrote d k))
      ∧ Event.roll ∉ eventsSince (writes p rs (initState files script))
          (write p r (writes p rs (initState files script)))
      ∧ (∃ t : Bytes,
          ((write p r (writes p rs (initState files script))).files (buildFileName p 0)).getD []
            = ((writes p rs (initState files script)).files (buildFileName p 0)).getD [] ++ t)
      ∧ (∀ n : NString, n ≠ buildFileName p 0 →
          (write p r (writes p rs (initState files script))).files n
            = (writes p rs (initState files script)).files n)
      ∧ (∀ n : NString, ((writes p rs (initState files script)).files n).isSome = true →
          ((write p r (writes p rs (initState files script))).files n).isSome = true) := by
  have hp0 : p.m_maxFiles ≤ 0 := by omega
  have hm0 : (initState files script).m_file = none
      ∨ (initState files script).m_file = some (buildFileName p 0) := Or.inl rfl
  have hm := writes_handle p rs _ hm0
  have htr := writes_trace_no_rotation p hp0 rs _ hm0 (by simp [initState])
  obtain ⟨⟨evs, ht, hev⟩, hext, hoth⟩ :=
    write_no_rotation p r (writes p rs (initState files script)) hp0 hm
  refine ⟨?_, ?_, hext, hoth, ?_⟩
  · intro e he
    rw [ht] at he
    rcases List.mem_append.mp he with he | he
    · exact htr e he
    · exact hev e he
  · rw [eventsSince_of_trace ht]
    intro hmem
    rcases hev _ hmem with ⟨_, _, _, h⟩ | ⟨_, _, h⟩ <;> exact absurd h (by simp)
  · intro n hn
    have hwf : (write p r (writes p rs (initState files script))).files
        = (fileWrite (p.convert r)
            (prepareWrite p (writes p rs (initState files script)))).2.files := by
      unfold write
      simp only
      split_ifs <;> simp
    rw [hwf, fileWrite_isSome]
    unfold prepareWrite
    split_ifs with h1 h2
    · rw [clearFirstWrite_files]; exact openLogFile_isSome_mono p _ n hn
    · omega
    · exact hn

/-- Witness for C7: two writes on a fresh appender with rotation disabled. -/
theorem C7_no_rotation_when_disabled_witness :
    Event.roll ∉ eventsSince (writes (demoConfig 0) [[1]] (initState (fun _ => none) []))
      (write (demoConfig 0) [2] (writes (demoConfig 0) [[1]] (initState (fun _ => none) []))) :=
  (C7_no_rotation_when_disabled (demoConfig 0) (fun _ => none) [] [[1]] [2] rfl).2.1

set_option maxRecDepth 20000 in
/-- C6 (refuted as stated): with `m_maxFiles = 1`, as in the sample, a first window whose
first record (1001 bytes of value 65) pushes the size over the limit makes the next
write rotate, which unlinks the base file: after the two backups that record is in
none of `scenario_1.log`, `scenario_2.log` and `Test.log`. -/
theorem C6_counterexample :
    (backupLogfile (demoConfig 1) "scenario_2.log".toList
        (writes (demoConfig 1) [[11]]
          (backupLogfile (demoConfig 1) "scenario_1.log".toList
            (writes (demoConfig 1) [List.replicate 1001 65, [10]]
              (initState (fun _ => none) []))))).files "scenario_1.log".toList
        = some [239, 187, 191, 10]
      ∧ (backupLogfile (demoConfig 1) "scenario_2.log".toList
        (writes (demoConfig 1) [[11]]
          (backupLogfile (demoConfig 1) "scenario_1.log".toList
            (writes (demoConfig 1) [List.replicate 1001 65, [10]]
              (initState (fun _ => none) []))))).files "scenario_2.log".toList
        = some [239, 187, 191, 11]
      ∧ (backupLogfile (demoConfig 1) "scenario_2.log".toList
        (writes (demoConfig 1) [[11]]
          (backupLogfile (demoConfig 1) "scenario_1.log".toList
            (writes (demoConfig 1) [List.replicate 1001 65, [10]]
              (initState (fun _ => none) []))))).files "Test.log".toList
        = some [239, 187, 191] := by
  refine ⟨by decide, by decide, by decide⟩

/-- C6 (amended): on an appender that has not written yet and whose base file is absent
or empty, with every open and write succeeding, for names `A` and `B` that denote two
distinct files, both other than the base file (so neither is another spelling of the
base file, the empty name or a path in a missing directory), a non-empty first window
and a second window during which no size-triggered rotation occurs (rotation disabled,
or header plus the window's encoded bytes within `m_maxFileSize`), the run "first
window, backup to `A`, second window, backup to `B`" leaves the file of `A` holding the
header followed by exactly the first window's records, the file of `B` the header
followed by exactly the second window's records, the base file only the header, and
every other file unchanged; the two files are non-empty when the header is. -/
theorem C6_two_backups {Record : Type} (p : Config Record) (s : State)
    (a b ka kb : NString) (r1 : Record) (w1 w2 : List Record)
    (hf : s.m_firstWrite = true) (hs : s.script = [])
    (hra : s.resolve a = some ka) (hrb : s.resolve b = some kb)
    (ha : ka ≠ buildFileName p 0) (hb : kb ≠ buildFileName p 0) (hab : ka ≠ kb)
    (hfresh : (s.files (buildFileName p 0)).getD [] = [])
    (h1 : p.m_maxFiles ≤ 0
      ∨ (p.header.length : Int) + ((encodeAll p (r1 :: w1)).length : Int) ≤ p.m_maxFileSize)
    (h2 : p.m_maxFiles ≤ 0
      ∨ (p.header.length : Int) + ((encodeAll p w2).length : Int) ≤ p.m_maxFileSize) :
    (backupLogfile p b (writes p w2 (backupLogfile p a (writes p (r1 :: w1) s)))).files ka
        = some (p.header ++ encodeAll p (r1 :: w1))
      ∧ (backupLogfile p b (writes p w2 (backupLogfile p a (writes p (r1 :: w1) s)))).files kb
        = some (p.header ++ encodeAll p w2)
      ∧ (backupLogfile p b (writes p w2 (backupLogfile p a
          (writes p (r1 :: w1) s)))).files (buildFileName p 0) = some p.header
      ∧ (∀ n : NString, n ≠ ka → n ≠ kb → n ≠ buildFileName p 0 →
          (backupLogfile p b (writes p w2 (backupLogfile p a
            (writes p (r1 :: w1) s)))).files n = s.files n)
      ∧ (p.header ≠ [] →
          p.header ++ encodeAll p (r1 :: w1) ≠ [] ∧ p.header ++ encodeAll p w2 ≠ []) := by
  obtain ⟨f1, f2, f3⟩ := writes_fresh p s r1 w1 hf hs hfresh h1
  have hra' : (writes p (r1 :: w1) s).resolve a = some ka := by
    rw [writes_resolve]; exact hra
  obtain ⟨g1, g2, g3, _⟩ := backupLogfile_ok p a (writes p (r1 :: w1) s) f1
  obtain ⟨g4, g5, g6, g7⟩ := backupLogfile_resolved p a ka (writes p (r1 :: w1) s) f1 hra'
  obtain ⟨k1, _, _, k4, _, k6⟩ := writes_active p w2 _ p.header g2 g3 g1 g5 g4 h2
  have hrb' : (writes p w2 (backupLogfile p a (writes p (r1 :: w1) s))).resolve b
      = some kb := by
    rw [writes_resolve, backupLogfile_resolve, writes_resolve]; exact hrb
  obtain ⟨_, m5, m6, m7⟩ := backupLogfile_resolved p b kb
    (writes p w2 (backupLogfile p a (writes p (r1 :: w1) s))) k1 hrb'
  refine ⟨?_, ?_, m5, ?_, ?_⟩
  · rw [m7 ka ha hab, k6 ka ha, g6 ha, f2]
  · rw [m6 hb, k4]
  · intro n hna hnb hn0
    rw [m7 n hn0 hnb, k6 n hn0, g7 n hn0 hna, f3 n hn0]
  · intro hh
    exact ⟨fun e => hh (List.append_eq_nil.mp e).1, fun e => hh (List.append_eq_nil.mp e).1⟩

/-- Witness for C6 (amended): the sample's run, two records per window. -/
theorem C6_two_backups_witness :
    (backupLogfile (demoConfig 1) "scenario_2.log".toList
        (writes (demoConfig 1) [[21], [22]]
          (backupLogfile (demoConfig 1) "scenario_1.log".toList
            (writes (demoConfig 1) ([11] :: [[12]])
              (initState (fun _ => none) []))))).files "scenario_1.log".toList
      = some ((demoConfig 1).header ++ encodeAll (demoConfig 1) ([11] :: [[12]])) :=
  (C6_two_backups (demoConfig 1) (initState (fun _ => none) []) "scenario_1.log".toList
    "scenario_2.log".toList "scenario_1.log".toList "scenario_2.log".toList
    [11] [[12]] [[21], [22]] rfl rfl (by decide) (by decide)
    (by decide) (by decide) (by decide) rfl (Or.inr (by decide)) (Or.inr (by decide))).1

/-! ## The first-write flag -/

@[simp] theorem rollLogFiles_m_firstWrite {Record : Type} (p : Config Record) (s : State) :
    (rollLogFiles p s).m_firstWrite = false := rfl

@[simp] theorem backupLogfile_m_firstWrite {Record : Type} (p : Config Record) (x : NString)
    (s : State) : (backupLogfile p x s).m_firstWrite = false := rfl

theorem prepareWrite_m_firstWrite {Record : Type} (p : Config Record) (s : State) :
    (prepareWrite p s).m_firstWrite = false := by
  unfold prepareWrite
  split_ifs with h1 h2
  · rfl
  · rfl
  · simpa using h1

@[simp] theorem write_m_firstWrite {Record : Type} (p : Config Record) (r : Record) (s : State) :
    (write p r s).m_firstWrite = false := by
  unfold write
  simp only
  split_ifs <;> simp [prepareWrite_m_firstWrite]

theorem step_m_firstWrite {Record : Type} (p : Config Record) (s : State) (o : Op Record) :
    (step p s o).m_firstWrite = false := by
  cases o <;> simp [step]

theorem run_m_firstWrite_of_false {Record : Type} (p : Config Record) (ops : List (Op Record)) :
    ∀ s : State, s.m_firstWrite = false → (run p ops s).m_firstWrite = false := by
  induction ops with
  | nil => intro s h; exact h
  | cons o os ih => intro s _; exact ih _ (step_m_firstWrite p s o)

theorem run_m_firstWrite_of_cons {Record : Type} (p : Config Record) (o : Op Record)
    (os : List (Op Record)) (s : State) : (run p (o :: os) s).m_firstWrite = false :=
  run_m_firstWrite_of_false p os _ (step_m_firstWrite p s o)

/-- The size update of `write` (lines 54-57). -/
theorem write_m_fileSize {Record : Type} (p : Config Record) (r : Record) (s : State) :
    (write p r s).m_fileSize
      = if (fileWrite (p.convert r) (prepareWrite p s)).1 > 0 then
          (prepareWrite p s).m_fileSize + (fileWrite (p.convert r) (prepareWrite p s)).1
        else (prepareWrite p s).m_fileSize := by
  unfold write
  simp only
  split_ifs <;> simp

/-- The size update of `openLogFile` (lines 98-108). -/
theorem openLogFile_m_fileSize {Record : Type} (p : Config Record) (s : State) :
    (openLogFile p s).m_fileSize
      = if 0 = (fileOpen (buildFileName p 0) s).1 then
          (if (fileWrite p.header ((fileOpen (buildFileName p 0) s).2.setSize
                (fileOpen (buildFileName p 0) s).1)).1 > 0 then
            (fileOpen (buildFileName p 0) s).1
              + (fileWrite p.header ((fileOpen (buildFileName p 0) s).2.setSize
                  (fileOpen (buildFileName p 0) s).1)).1
          else (fileOpen (buildFileName p 0) s).1)
        else (fileOpen (buildFileName p 0) s).1 := by
  unfold openLogFile
  simp only [setSize_m_fileSize]
  split_ifs <;> simp

/-- C13: `buildFileName(0)` is `name.ext` and `buildFileName(N)` for `N > 0` is
`name.<N>.ext` with `N` in decimal (the digits read back as `N`); with an empty
extension the results are `name` and `name.<N>`, without a trailing dot. -/
theorem C13_buildFileName_layout {Record : Type} (p : Config Record) :
    (p.m_fileExt ≠ [] →
        buildFileName p 0 = p.m_fileNameNoExt ++ '.' :: p.m_fileExt
          ∧ ∀ n : Int, 0 < n →
              buildFileName p n
                = p.m_fileNameNoExt ++ '.' :: (Nat.repr n.toNat).toList ++ '.' :: p.m_fileExt)
      ∧ (p.m_fileExt = [] →
          buildFileName p 0 = p.m_fileNameNoExt
            ∧ ∀ n : Int, 0 < n →
                buildFileName p n = p.m_fileNameNoExt ++ '.' :: (Nat.repr n.toNat).toList)
      ∧ ∀ n : Int, 0 < n → ((parseDec (Nat.repr n.toNat).toList : Nat) : Int) = n := by
  have hrepr : ∀ k : Nat, (Nat.repr k).toList = Nat.toDigits 10 k := fun _ => rfl
  refine ⟨?_, ?_, ?_⟩
  · intro he
    refine ⟨?_, ?_⟩
    · simp [buildFileName, he]
    · intro n hn
      simp only [buildFileName, he, hn, hrepr, if_true, if_false, ne_eq, not_false_eq_true,
        not_true_eq_false, List.append_assoc, List.cons_append, List.append_nil]
  · intro he
    refine ⟨?_, ?_⟩
    · simp [buildFileName, he]
    · intro n hn
      simp only [buildFileName, he, hn, hrepr, if_true, if_false, ne_eq, not_false_eq_true,
        not_true_eq_false, List.append_assoc, List.cons_append, List.append_nil]
  · intro n hn
    rw [hrepr, parseDec_toDigits]
    omega

/-- Witness for C13: the sample's base name and its twelfth rotated name. -/
theorem C13_buildFileName_layout_witness :
    buildFileName (demoConfig 3) 0 = "Test.log".toList
      ∧ buildFileName (demoConfig 3) 12 = "Test.12.log".toList := by
  have h := (C13_buildFileName_layout (demoConfig 3)).1 (by decide)
  exact ⟨h.1, h.2 12 (by decide)⟩

/-- C19: for a fixed base name and extension, `buildFileName` is injective on
non-negative indices: distinct slots of the retention chain never share a name. -/
theorem C19_buildFileName_injective {Record : Type} (p : Config Record) (i j : Int)
    (hi : 0 ≤ i) (hj : 0 ≤ j) (hij : i ≠ j) : buildFileName p i ≠ buildFileName p j :=
  fun e => hij (buildFileName_inj p hi hj e)

/-- Witness for C19: indices 1 and 10 of the sample's chain. -/
theorem C19_buildFileName_injective_witness :
    buildFileName (demoConfig 3) 1 ≠ buildFileName (demoConfig 3) 10 :=
  C19_buildFileName_injective (demoConfig 3) 1 10 (by decide) (by decide) (by decide)

/-- C15: the first-write flag is true after construction, when no I/O has happened; it
is false after any call of `write`, `rollLogFiles` or `backupLogfile`, from any state;
hence after a sequence of calls it is true only for the empty sequence, so the lazy
open branch of `write`, which is taken exactly when the flag is true, is taken at most
once and only by a write that no call preceded. -/
theorem C15_first_write_one_shot {Record : Type} (p : Config Record)
    (files : NString → Option Bytes) (script : List Outcome) :
    ((initState files script).m_firstWrite = true ∧ (initState files script).trace = [])
      ∧ (∀ (s : State) (o : Op Record), (step p s o).m_firstWrite = false)
      ∧ (∀ ops : List (Op Record),
          (run p ops (initState files script)).m_firstWrite = true ↔ ops = [])
      ∧ (∀ s : State, s.m_firstWrite = true →
          prepareWrite p s = (openLogFile p s).clearFirstWrite)
      ∧ (∀ (pre : List (Op Record)),
          prepareWrite p (run p pre (initState files script))
              = (openLogFile p (run p pre (initState files script))).clearFirstWrite
            ∧ (run p pre (initState files script)).m_firstWrite = true
          ↔ pre = []) := by
  have hrun : ∀ ops : List (Op Record),
      (run p ops (initState files script)).m_firstWrite = true ↔ ops = [] := by
    intro ops
    cases ops with
    | nil => simp [run, initState]
    | cons o os => simp [run_m_firstWrite_of_cons]
  refine ⟨⟨rfl, rfl⟩, step_m_firstWrite p, hrun, prepareWrite_first p, ?_⟩
  intro pre
  constructor
  · intro h
    exact (hrun pre).mp h.2
  · intro h
    subst h
    exact ⟨prepareWrite_first p _ rfl, rfl⟩

/-- C11: in `write`, when the byte-write reports zero or a negative sentinel
`m_fileSize` keeps the value it had when the record was issued, and when it reports
`n > 0` it grows by exactly `n`; the same holds for the header write of `openLogFile`
after an `open` that reported size 0. When the write is neither the first nor a
rotating one, that value is the size before the call. Both functions are total: no
outcome raises an error. -/
theorem C11_size_update_on_write {Record : Type} (p : Config Record) (r : Record) (s : State) :
    ((fileWrite (p.convert r) (prepareWrite p s)).1 ≤ 0 →
        (write p r s).m_fileSize = (prepareWrite p s).m_fileSize)
      ∧ ((fileWrite (p.convert r) (prepareWrite p s)).1 > 0 →
        (write p r s).m_fileSize
          = (prepareWrite p s).m_fileSize + (fileWrite (p.convert r) (prepareWrite p s)).1)
      ∧ (s.m_firstWrite = false →
          ¬ (p.m_maxFiles > 0 ∧ s.m_fileSize > p.m_maxFileSize ∧ -1 ≠ s.m_fileSize) →
          ((fileWrite (p.convert r) s).1 ≤ 0 → (write p r s).m_fileSize = s.m_fileSize)
            ∧ ((fileWrite (p.convert r) s).1 > 0 →
                (write p r s).m_fileSize = s.m_fileSize + (fileWrite (p.convert r) s).1))
      ∧ ((fileOpen (buildFileName p 0) s).1 = 0 →
          ((fileWrite p.header ((fileOpen (buildFileName p 0) s).2.setSize 0)).1 ≤ 0 →
              (openLogFile p s).m_fileSize = 0)
            ∧ ((fileWrite p.header ((fileOpen (buildFileName p 0) s).2.setSize 0)).1 > 0 →
              (openLogFile p s).m_fileSize
                = 0 + (fileWrite p.header ((fileOpen (buildFileName p 0) s).2.setSize 0)).1))
      ∧ Event.wrote (p.convert r) (fileWrite (p.convert r) (prepareWrite p s)).1
          ∈ eventsSince s (write p r s) := by
  have hw := write_m_fileSize p r s
  refine ⟨?_, ?_, ?_, ?_, ?_⟩
  · intro h
    rw [hw, if_neg (by omega)]
  · intro h
    rw [hw, if_pos h]
  · intro hf hno
    rw [prepareWrite_keep p s hf hno] at hw
    exact ⟨fun h => by rw [hw, if_neg (by omega)], fun h => by rw [hw, if_pos h]⟩
  · intro h0
    have ho := openLogFile_m_fileSize p s
    rw [h0] at ho
    simp only [if_true] at ho
    exact ⟨fun h => by rw [ho, if_neg (by omega)], fun h => by rw [ho, if_pos h]⟩
  · have hmono : ∃ evs : List Event, (prepareWrite p s).trace = s.trace ++ evs := by
      unfold prepareWrite
      split_ifs
      · exact ⟨_, by rw [clearFirstWrite_trace, openLogFile_trace]⟩
      · obtain ⟨evs, h⟩ := rollLogFiles_trace p s
        exact ⟨_, h⟩
      · exact ⟨[], by simp⟩
    obtain ⟨evs, hevs⟩ := hmono
    have ht : (write p r s).trace = s.trace ++ (evs
        ++ [Event.wrote (p.convert r) (fileWrite (p.convert r) (prepareWrite p s)).1]) := by
      rw [write_trace, hevs, List.append_assoc]
    rw [eventsSince_of_trace ht]
    simp

/-- Witness for C11: a failed write (sentinel `-1`) leaves the size at 2. -/
theorem C11_size_update_on_write_witness :
    (fileWrite ((demoConfig 1).convert [10])
        (prepareWrite (demoConfig 1)
          { demoActive [1, 2] (fun _ => none) with script := [Outcome.fail] })).1 = -1
      ∧ (write (demoConfig 1) [10]
          { demoActive [1, 2] (fun _ => none) with script := [Outcome.fail] }).m_fileSize
        = (prepareWrite (demoConfig 1)
            { demoActive [1, 2] (fun _ => none) with script := [Outcome.fail] }).m_fileSize
      ∧ (prepareWrite (demoConfig 1)
            { demoActive [1, 2] (fun _ => none) with script := [Outcome.fail] }).m_fileSize = 2 :=
  ⟨by decide,
    (C11_size_update_on_write (demoConfig 1) [10]
      { demoActive [1, 2] (fun _ => none) with script := [Outcome.fail] }).1 (by decide),
    by decide⟩

theorem ledger_snoc (t : List Event) (e : Event) : ledger (t ++ [e]) = ledgerStep (ledger t) e := by
  simp [ledger, List.foldl_append]

theorem ledger_append (t u : List Event) : ledger (t ++ u) = u.foldl ledgerStep (ledger t) := by
  simp [ledger, List.foldl_append]

/-- After `openLogFile`, whatever the state before, `m_fileSize` is the size `open`
reported plus the header bytes counted. -/
theorem ledger_openLogFile {Record : Type} (p : Config Record) (s : State) :
    (openLogFile p s).m_fileSize
      = (ledger (openLogFile p s).trace).1 + (ledger (openLogFile p s).trace).2 := by
  rw [openLogFile_trace, openLogFile_m_fileSize, ledger_append]
  by_cases h0 : (0 : Int) = (fileOpen (buildFileName p 0) s).1
  · rw [if_pos h0, if_pos h0]
    by_cases hpos : (fileWrite p.header ((fileOpen (buildFileName p 0) s).2.setSize
        (fileOpen (buildFileName p 0) s).1)).1 > 0
    · rw [if_pos hpos]
      simp [ledgerStep, List.foldl, hpos]
    · rw [if_neg hpos]
      simp [ledgerStep, List.foldl, hpos]
  · rw [if_neg h0, if_neg h0]
    simp [ledgerStep, List.foldl]

theorem ledger_write {Record : Type} (p : Config Record) (r : Record) (s : State)
    (h : (prepareWrite p s).m_fileSize
      = (ledger (prepareWrite p s).trace).1 + (ledger (prepareWrite p s).trace).2) :
    (write p r s).m_fileSize = (ledger (write p r s).trace).1 + (ledger (write p r s).trace).2 := by
  rw [write_trace, write_m_fileSize, ledger_snoc]
  rcases hl : ledger (prepareWrite p s).trace with ⟨o, b⟩
  rw [hl] at h
  simp only at h
  by_cases hpos : (fileWrite (p.convert r) (prepareWrite p s)).1 > 0
  · rw [if_pos hpos]
    simp only [ledgerStep, hpos, if_true, h]
    omega
  · rw [if_neg hpos]
    simp only [ledgerStep, hpos, if_false, h]

theorem ledger_step {Record : Type} (p : Config Record) (s : State) (o : Op Record)
    (h : s.m_fileSize = (ledger s.trace).1 + (ledger s.trace).2) :
    (step p s o).m_fileSize = (ledger (step p s o).trace).1 + (ledger (step p s o).trace).2 := by
  cases o with
  | write r =>
    apply ledger_write
    unfold prepareWrite
    split_ifs
    · exact ledger_openLogFile p s
    · exact ledger_openLogFile p _
    · exact h
  | rollLogFiles => exact ledger_openLogFile p _
  | backupLogfile x => exact ledger_openLogFile p _

theorem ledger_run {Record : Type} (p : Config Record) (ops : List (Op Record)) :
    ∀ s : State, s.m_fileSize = (ledger s.trace).1 + (ledger s.trace).2 →
      (run p ops s).m_fileSize = (ledger (run p ops s).trace).1 + (ledger (run p ops s).trace).2 := by
  induction ops with
  | nil => intro s h; exact h
  | cons o os ih => intro s h; exact ih _ (ledger_step p s o h)

/-- C12 (refuted as stated): a fresh appender whose base file already holds 2 bytes
writes a 1-byte record, every call succeeding; `m_fileSize` is then 3 (the size `open`
reported plus the record), while 1 byte has been persisted since the file was opened. -/
theorem C12_counterexample :
    (run (demoConfig 1) [Op.write [10]]
        (initState (Function.update (fun _ => none) "Test.log".toList (some [1, 2])) [])).m_fileSize
        = 3
      ∧ bytesSinceOpen (run (demoConfig 1) [Op.write [10]]
          (initState (Function.update (fun _ => none) "Test.log".toList (some [1, 2])) [])).trace
        = 1
      ∧ (run (demoConfig 1) [Op.write [10]]
          (initState (Function.update (fun _ => none) "Test.log".toList (some [1, 2])) [])).files
          "Test.log".toList = some [1, 2, 10] := by
  refine ⟨by decide, by decide, by decide⟩

/-- C12 (amended): in every state reached from a freshly constructed appender by calls of
`write`, `rollLogFiles` and `backupLogfile` that all succeed, `m_fileSize` equals the
size reported by the last `open` plus the number of bytes persisted since; once a call
has been made, the handle is open on the base file and `m_fileSize` is the byte length
of that file. It equals the bytes persisted since the last `open` whenever that `open`
reported size 0. -/
theorem C12_size_is_file_length {Record : Type} (p : Config Record)
    (files : NString → Option Bytes) (ops : List (Op Record)) :
    (run p ops (initState files [])).m_fileSize
        = sizeAtOpen (run p ops (initState files [])).trace
          + bytesSinceOpen (run p ops (initState files [])).trace
      ∧ ((run p ops (initState files [])).m_firstWrite = false →
          (run p ops (initState files [])).m_file = some (buildFileName p 0)
            ∧ ∃ c : Bytes, (run p ops (initState files [])).files (buildFileName p 0) = some c
                ∧ (run p ops (initState files [])).m_fileSize = (c.length : Int))
      ∧ (sizeAtOpen (run p ops (initState files [])).trace = 0 →
          (run p ops (initState files [])).m_fileSize
            = bytesSinceOpen (run p ops (initState files [])).trace) := by
  have h1 := ledger_run p ops (initState files []) (by simp [initState, ledger])
  have h2 := (synced_run p ops (initState files []) rfl (synced_initState p files [])).1
  refine ⟨h1, h2, ?_⟩
  intro h0
  unfold sizeAtOpen at h0
  rw [h1, h0]
  simp [bytesSinceOpen]

/-! ## Handle discipline of the trace -/

theorem opensGuarded_append (t : List Event) : ∀ (b : Bool) (u : List Event),
    opensGuarded b (t ++ u) = (opensGuarded b t && opensGuarded (closedAfter b t) u) := by
  induction t with
  | nil => intro b u; simp [opensGuarded, closedAfter]
  | cons e t ih =>
    intro b u
    cases e <;> simp [opensGuarded, closedAfter, ih, Bool.and_assoc]

theorem opensGuarded_mono (t : List Event) : ∀ b : Bool,
    opensGuarded false t = true → opensGuarded b t = true := by
  induction t with
  | nil => intro b _; rfl
  | cons e t ih =>
    intro b h
    cases e with
    | roll => exact ih b h
    | closed => exact h
    | opened n w z => simp [opensGuarded] at h
    | wrote d k => exact ih b h
    | unlinked n x => exact ih b h
    | renamed a c x y => exact ih b h

theorem opensGuarded_renames (evs : List Event)
    (h : ∀ e ∈ evs, ∃ a b x y, e = Event.renamed a b x y) (b : Bool) (u : List Event) :
    opensGuarded b (evs ++ u) = opensGuarded b u := by
  induction evs with
  | nil => rfl
  | cons e t ih =>
    obtain ⟨a, c, x, y, rfl⟩ := h e (List.mem_cons_self _ _)
    simp only [List.cons_append, opensGuarded]
    exact ih (fun e' he' => h e' (List.mem_cons_of_mem _ he'))

/-- Every `open` of a guarded trace found the handle closed. -/
theorem opensGuarded_wasOpen (t : List Event) : ∀ b : Bool, opensGuarded b t = true →
    ∀ (n : NString) (w : Bool) (z : Int), Event.opened n w z ∈ t → w = false := by
  induction t with
  | nil => intro b _ n w z hm; simp at hm
  | cons e t ih =>
    intro b h n w z hm
    rcases List.mem_cons.mp hm with he | he
    · subst he
      simp [opensGuarded] at h
      exact h.1.2
    · cases e <;> simp [opensGuarded] at h
      · exact ih _ h n w z he
      · exact ih _ h n w z he
      · exact ih _ h.2 n w z he
      · exact ih _ h n w z he
      · exact ih _ h n w z he
      · exact ih _ h n w z he

/-- The reopening: an `open` on a closed handle, possibly followed by the header write,
then calls that open nothing. -/
theorem opensGuarded_reopen (n : NString) (z : Int) (hdr u : List Event)
    (hh : hdr = [] ∨ ∃ d k, hdr = [Event.wrote d k]) (hu : opensGuarded false u = true) :
    opensGuarded true (Event.opened n false z :: (hdr ++ u)) = true := by
  have h1 : opensGuarded false (hdr ++ u) = true := by
    rcases hh with rfl | ⟨d, k, rfl⟩
    · exact hu
    · exact hu
  show (true && !false && opensGuarded false (hdr ++ u)) = true
  rw [h1]
  rfl

/-- Calls of `rollLogFiles` followed by calls that open nothing. -/
theorem opensGuarded_roll (b : Bool) (nm : NString) (ex : Bool) (evs : List Event)
    (n : NString) (z : Int) (hdr u : List Event)
    (hev : ∀ e ∈ evs, ∃ a c x y, e = Event.renamed a c x y)
    (hh : hdr = [] ∨ ∃ d k, hdr = [Event.wrote d k]) (hu : opensGuarded false u = true) :
    opensGuarded b (Event.roll :: Event.closed :: Event.unlinked nm ex
      :: (evs ++ Event.opened n false z :: (hdr ++ u))) = true := by
  show opensGuarded true (evs ++ Event.opened n false z :: (hdr ++ u)) = true
  rw [opensGuarded_renames evs hev]
  exact opensGuarded_reopen n z hdr u hh hu

theorem header_events {Record : Type} (p : Config Record) (s : State) :
    (if 0 = (fileOpen (buildFileName p 0) s).1 then
        [Event.wrote p.header
          (fileWrite p.header
            ((fileOpen (buildFileName p 0) s).2.setSize (fileOpen (buildFileName p 0) s).1)).1]
      else []) = []
    ∨ ∃ d k, (if 0 = (fileOpen (buildFileName p 0) s).1 then
        [Event.wrote p.header
          (fileWrite p.header
            ((fileOpen (buildFileName p 0) s).2.setSize (fileOpen (buildFileName p 0) s).1)).1]
      else []) = [Event.wrote d k] := by
  split_ifs
  · exact Or.inr ⟨_, _, rfl⟩
  · exact Or.inl rfl

theorem backupLogfile_trace_eq {Record : Type} (p : Config Record) (x : NString) (s : State) :
    ∃ (d : NString) (y1 y2 y3 : Bool) (z : Int) (u : List Event),
      (backupLogfile p x s).trace
          = s.trace ++ Event.closed :: Event.unlinked x y1
              :: Event.renamed (buildFileName p 0) d y2 y3
              :: Event.opened (buildFileName p 0) false z :: u
        ∧ (u = [] ∨ ∃ d k, u = [Event.wrote d k]) := by
  have hm : (renamePath (buildFileName p 0) x (unlinkPath x (fileClose s))).m_file = none := by
    simp
  have ht : ∃ (d : NString) (y1 y2 y3 : Bool),
      (renamePath (buildFileName p 0) x (unlinkPath x (fileClose s))).trace
        = s.trace ++ [Event.closed, Event.unlinked x y1,
            Event.renamed (buildFileName p 0) d y2 y3] := by
    cases hres : s.resolve x with
    | none =>
      refine ⟨x, false, (s.files (buildFileName p 0)).isSome, false, ?_⟩
      unfold renamePath unlinkPath
      simp [hres]
    | some k =>
      refine ⟨k, (s.files k).isSome,
        ((unlinkPath x (fileClose s)).files (buildFileName p 0)).isSome,
        ((unlinkPath x (fileClose s)).files k).isSome, ?_⟩
      have hr : renamePath (buildFileName p 0) x (unlinkPath x (fileClose s))
          = fileRename (buildFileName p 0) k (unlinkPath x (fileClose s)) := by
        unfold renamePath
        simp [hres]
      rw [hr, fileRename_trace]
      unfold unlinkPath
      simp [hres]
  obtain ⟨d, y1, y2, y3, ht⟩ := ht
  refine ⟨d, y1, y2, y3,
    (fileOpen (buildFileName p 0)
      (renamePath (buildFileName p 0) x (unlinkPath x (fileClose s)))).1, _, ?_,
    header_events p (renamePath (buildFileName p 0) x (unlinkPath x (fileClose s)))⟩
  rw [backupLogfile_eq, clearFirstWrite_trace, openLogFile_trace, hm, ht]
  simp

/-- Calls of one public operation: every `open` in them comes after a close made by the
same operation, except the lazy open of a first write, which finds the handle closed. -/
theorem step_guarded {Record : Type} (p : Config Record) (s : State) (o : Op Record)
    (h : s.m_firstWrite = true → s.m_file = none) :
    ∃ evs : List Event, (step p s o).trace = s.trace ++ evs
      ∧ opensGuarded s.m_firstWrite evs = true := by
  have hroll : ∀ u : List Event, opensGuarded false u = true →
      ∃ evs : List Event, (rollLogFiles p s).trace ++ u = s.trace ++ evs
        ∧ opensGuarded s.m_firstWrite evs = true := by
    intro u hu
    obtain ⟨nm, ex, evs, ht, hev⟩ := rollLogFiles_trace_shape p s
    refine ⟨_, ?_, opensGuarded_roll s.m_firstWrite nm ex evs (buildFileName p 0)
      (fileOpen (buildFileName p 0) (beforeReopen p s)).1 _ u hev
      (header_events p (beforeReopen p s)) hu⟩
    rw [ht]
    simp only [List.append_assoc, List.cons_append]
  cases o with
  | write r =>
    simp only [step]
    rw [write_trace]
    by_cases hf : s.m_firstWrite = true
    · rw [prepareWrite_first p s hf, clearFirstWrite_trace, openLogFile_trace, h hf, hf]
      refine ⟨_, ?_, opensGuarded_reopen (buildFileName p 0)
        (fileOpen (buildFileName p 0) s).1 _
        [Event.wrote (p.convert r) (fileWrite (p.convert r) (openLogFile p s).clearFirstWrite).1]
        (header_events p s) rfl⟩
      simp only [List.append_assoc, List.cons_append, Option.isSome_none]
    · have hf2 : s.m_firstWrite = false := by simpa using hf
      by_cases hc : p.m_maxFiles > 0 ∧ s.m_fileSize > p.m_maxFileSize ∧ -1 ≠ s.m_fileSize
      · rw [prepareWrite_roll p s hf2 hc]
        exact hroll _ rfl
      · rw [prepareWrite_keep p s hf2 hc]
        exact ⟨_, rfl, opensGuarded_mono _ _ rfl⟩
  | rollLogFiles =>
    simp only [step]
    have := hroll [] rfl
    simpa using this
  | backupLogfile x =>
    simp only [step]
    obtain ⟨d, y1, y2, y3, z, u, ht, hu⟩ := backupLogfile_trace_eq p x s
    refine ⟨_, ht, ?_⟩
    show opensGuarded true (Event.opened (buildFileName p 0) false z :: u) = true
    have := opensGuarded_reopen (buildFileName p 0) z u [] hu rfl
    simpa using this

theorem run_guarded {Record : Type} (p : Config Record) (ops : List (Op Record)) :
    ∀ s : State, opensGuarded true s.trace = true →
      (s.m_firstWrite = true → closedAfter true s.trace = true ∧ s.m_file = none) →
      opensGuarded true (run p ops s).trace = true
        ∧ ((run p ops s).m_firstWrite = true →
            closedAfter true (run p ops s).trace = true ∧ (run p ops s).m_file = none) := by
  induction ops with
  | nil => intro s h1 h2; exact ⟨h1, h2⟩
  | cons o os ih =>
    intro s h1 h2
    obtain ⟨evs, ht, hg⟩ := step_guarded p s o (fun hf => (h2 hf).2)
    apply ih (step p s o)
    · rw [ht, opensGuarded_append, h1, Bool.true_and]
      by_cases hf : s.m_firstWrite = true
      · rw [(h2 hf).1]
        rw [hf] at hg
        exact hg
      · have hf2 : s.m_firstWrite = false := by simpa using hf
        rw [hf2] at hg
        exact opensGuarded_mono _ _ hg
    · intro hf
      rw [step_m_firstWrite] at hf
      exact absurd hf (by simp)

/-- C14: in every sequence of public calls on a freshly constructed appender, whatever
the outcomes of the calls, every `open` finds the handle closed; in the whole history
each `open` is the first one or follows a close that no other `open` follows; and
within each call an `open` comes after a close of the same call, unless it is the lazy
open of a first write, before which nothing was ever opened. -/
theorem C14_never_opened_while_open {Record : Type} (p : Config Record)
    (files : NString → Option Bytes) (script : List Outcome) (ops : List (Op Record))
    (o : Op Record) :
    opensGuarded true (run p ops (initState files script)).trace = true
      ∧ (∀ (n : NString) (w : Bool) (z : Int),
          Event.opened n w z ∈ (run p ops (initState files script)).trace → w = false)
      ∧ opensGuarded (run p ops (initState files script)).m_firstWrite
          (eventsSince (run p ops (initState files script))
            (step p (run p ops (initState files script)) o)) = true
      ∧ ((run p ops (initState files script)).m_firstWrite = true →
          (run p ops (initState files script)).trace = []
            ∧ (run p ops (initState files script)).m_file = none) := by
  obtain ⟨h1, h2⟩ := run_guarded p ops (initState files script) rfl (fun _ => ⟨rfl, rfl⟩)
  have h4 : (run p ops (initState files script)).m_firstWrite = true →
      (run p ops (initState files script)).trace = []
        ∧ (run p ops (initState files script)).m_file = none := by
    intro hf
    cases ops with
    | nil => exact ⟨rfl, rfl⟩
    | cons o' os =>
      rw [run_m_firstWrite_of_cons] at hf
      exact absurd hf (by simp)
  refine ⟨h1, opensGuarded_wasOpen _ _ h1, ?_, h4⟩
  obtain ⟨evs, ht, hg⟩ := step_guarded p (run p ops (initState files script)) o
    (fun hf => (h2 hf).2)
  rw [eventsSince_of_trace ht]
  exact hg

/-- Witness for C14: a write, a backup and a direct rotation, the first `open` failing. -/
theorem C14_never_opened_while_open_witness :
    opensGuarded true
      (run (demoConfig 3) [Op.write [1], Op.backupLogfile "scenario_1.log".toList, Op.rollLogFiles]
        (initState (fun _ => none) [Outcome.fail])).trace = true :=
  (C14_never_opened_while_open (demoConfig 3) (fun _ => none) [Outcome.fail]
    [Op.write [1], Op.backupLogfile "scenario_1.log".toList, Op.rollLogFiles]
    (Op.write [2])).1

/-- Witness for C12 (amended): after one write on an empty file system the size is the
length of the base file. -/
theorem C12_size_is_file_length_witness :
    (run (demoConfig 1) [Op.write [10]] (initState (fun _ => none) [])).m_file
        = some (buildFileName (demoConfig 1) 0)
      ∧ ∃ c : Bytes,
          (run (demoConfig 1) [Op.write [10]] (initState (fun _ => none) [])).files
              (buildFileName (demoConfig 1) 0) = some c
            ∧ (run (demoConfig 1) [Op.write [10]] (initState (fun _ => none) [])).m_fileSize
              = (c.length : Int) :=
  (C12_size_is_file_length (demoConfig 1) (fun _ => none) [Op.write [10]]).2.1 (by decide)

/-- Witness for C15: after a direct rotation the flag is false. -/
theorem C15_first_write_one_shot_witness :
    (run (demoConfig 1) [Op.rollLogFiles] (initState (fun _ => none) [])).m_firstWrite = true
      ↔ ([Op.rollLogFiles] : List (Op Bytes)) = [] :=
  (C15_first_write_one_shot (demoConfig 1) (fun _ => none) []).2.2.1 [Op.rollLogFiles]

end plog
